import Mathlib

/-!
Verification development for the Logseq-to-org-roam migration script
(`logseq_to_org_roam.py`).  The Python source is shallowly embedded here:
every regex substitution of the script is rendered as an executable scanner
over `List Char` with the same matching semantics (leftmost match,
one-character advance on failure, replacement text not rescanned), stateful
passes thread an explicit `ConvState`, and the random `uuid.uuid4()`
generator is modelled by a deterministic fresh-name supply (`generate_uuid`)
that preserves the only property the script relies on: identifiers produced
at different times are distinct.
-/

set_option maxRecDepth 100000
set_option maxHeartbeats 2000000

namespace L2O

abbrev Chars := List Char

/-- Whitespace characters recognized by Python's `str.strip` and `\s`
(ASCII fragment). -/
def pySpace (c : Char) : Bool :=
  c = ' ' || c = '\t' || c = '\n' || c = '\r' || c = '\x0b' || c = '\x0c'

/-- Word characters of Python's `\w` (ASCII fragment). -/
def wordChar (c : Char) : Bool :=
  (('a' ≤ c && c ≤ 'z') || ('A' ≤ c && c ≤ 'Z') || ('0' ≤ c && c ≤ '9') || c = '_')

/-- Decimal digit, Python's `\d` (ASCII fragment). -/
def digitChar (c : Char) : Bool := '0' ≤ c && c ≤ '9'

/-- Python `str.strip()` on a character list: drop whitespace from both ends. -/
def pyStrip (l : Chars) : Chars :=
  ((l.dropWhile pySpace).reverse.dropWhile pySpace).reverse

/-- The backtick character (written numerically). -/
def btick : Char := Char.ofNat 96

/-- Characters removed by the first step of `normalize_page_name`
(`re.sub(r'[*`~]', '', ...)`). -/
def fmtChar (c : Char) : Bool := c = '*' || c = btick || c = '~'

/-- Characters removed by the third step of `normalize_page_name`
(`re.sub(r'[<>:"|?*]', '', ...)`). -/
def illegalChar (c : Char) : Bool :=
  c = '<' || c = '>' || c = ':' || c = '\x22' || c = '|' || c = '?' || c = '*'

/-- Second step of `normalize_page_name`: `page_name.replace('/', '___')`. -/
def replSlash : Chars → Chars
  | [] => []
  | c :: r => (if c = '/' then ['_', '_', '_'] else [c]) ++ replSlash r

/-- Character-list body of `normalize_page_name` (lines 95-103 of the
source): strip markdown formatting chars, turn `/` into `___`, drop
file-name-illegal chars, strip surrounding whitespace. -/
def normChars (l : Chars) : Chars :=
  pyStrip ((replSlash (l.filter (fun c => !fmtChar c))).filter (fun c => !illegalChar c))

/-- Source `normalize_page_name` (String interface). -/
def normalize_page_name (s : String) : String :=
  ⟨normChars s.data⟩

-- Character-class membership lemmas used to prove idempotence.

theorem mem_filter_sub {p : Char → Bool} {l : Chars} {c : Char}
    (h : c ∈ l.filter p) : c ∈ l := (List.mem_filter.mp h).1

theorem mem_replSlash {l : Chars} {c : Char} (h : c ∈ replSlash l) :
    c = '_' ∨ (c ∈ l ∧ c ≠ '/') := by
  induction l with
  | nil => simp [replSlash] at h
  | cons a r ih =>
    simp only [replSlash, List.mem_append] at h
    rcases h with h | h
    · by_cases ha : a = '/'
      · simp [ha] at h
        exact Or.inl h
      · simp [ha] at h
        refine Or.inr ⟨?_, ?_⟩
        · rw [h]; exact List.mem_cons_self a r
        · rw [h]; exact ha
    · rcases ih h with h | h
      · exact Or.inl h
      · exact Or.inr ⟨List.mem_cons_of_mem _ h.1, h.2⟩

theorem mem_pyStrip {l : Chars} {c : Char} (h : c ∈ pyStrip l) : c ∈ l := by
  unfold pyStrip at h
  rw [List.mem_reverse] at h
  have h1 := (List.dropWhile_sublist (l := (l.dropWhile pySpace).reverse) pySpace).subset h
  rw [List.mem_reverse] at h1
  exact (List.dropWhile_sublist pySpace).subset h1

theorem filter_eq_self_of_all {p : Char → Bool} {l : Chars}
    (h : ∀ c ∈ l, p c = true) : l.filter p = l :=
  List.filter_eq_self.mpr h

theorem replSlash_eq_self_of_no_slash {l : Chars}
    (h : ∀ c ∈ l, c ≠ '/') : replSlash l = l := by
  induction l with
  | nil => rfl
  | cons a r ih =>
    have ha : a ≠ '/' := h a (List.mem_cons_self a r)
    simp only [replSlash, if_neg ha, List.singleton_append, List.cons.injEq, true_and]
    exact ih (fun c hc => h c (List.mem_cons_of_mem _ hc))

theorem dropWhile_eq_self_of_head {p : Char → Bool} {l : Chars}
    (h : ∀ c t, l = c :: t → p c = false) : l.dropWhile p = l := by
  cases l with
  | nil => rfl
  | cons c t =>
    have hc := h c t rfl
    rw [List.dropWhile_cons]
    simp [hc]

theorem head_dropWhile_false {p : Char → Bool} {l : Chars} {c : Char} {t : Chars}
    (h : l.dropWhile p = c :: t) : p c = false := by
  induction l with
  | nil => simp [List.dropWhile] at h
  | cons a r ih =>
    rw [List.dropWhile_cons] at h
    cases hpa : p a
    · rw [hpa] at h
      simp at h
      rw [← h.1]
      exact hpa
    · rw [hpa] at h
      simp at h
      exact ih h

theorem pyStrip_head {l : Chars} {c : Char} {t : Chars}
    (h : pyStrip l = c :: t) : pySpace c = false := by
  unfold pyStrip at h
  set A := l.dropWhile pySpace with hA
  obtain ⟨u, hu⟩ := List.dropWhile_suffix (l := A.reverse) pySpace
  -- A = B ++ u.reverse where B is the stripped result
  have hAeq : A = (A.reverse.dropWhile pySpace).reverse ++ u.reverse := by
    calc A = A.reverse.reverse := by rw [List.reverse_reverse]
    _ = (u ++ A.reverse.dropWhile pySpace).reverse := by rw [hu]
    _ = (A.reverse.dropWhile pySpace).reverse ++ u.reverse := by
        rw [List.reverse_append]
  rw [h] at hAeq
  exact head_dropWhile_false (p := pySpace) (l := l) (by rw [← hA, hAeq]; rfl)

theorem pyStrip_idem (l : Chars) : pyStrip (pyStrip l) = pyStrip l := by
  have h1 : (pyStrip l).dropWhile pySpace = pyStrip l := by
    apply dropWhile_eq_self_of_head
    intro c t hct
    exact pyStrip_head hct
  have h2 : (pyStrip l).reverse.dropWhile pySpace = (pyStrip l).reverse := by
    have hrr : (pyStrip l).reverse = (l.dropWhile pySpace).reverse.dropWhile pySpace := by
      unfold pyStrip
      rw [List.reverse_reverse]
    rw [hrr]
    exact List.dropWhile_idempotent ..
  calc pyStrip (pyStrip l)
      = (((pyStrip l).dropWhile pySpace).reverse.dropWhile pySpace).reverse := rfl
    _ = ((pyStrip l).reverse.dropWhile pySpace).reverse := by rw [h1]
    _ = (pyStrip l).reverse.reverse := by rw [h2]
    _ = pyStrip l := by rw [List.reverse_reverse]

/-- Character-set facts about `normChars`: its output contains no formatting
char, no slash, and no file-name-illegal char. -/
theorem normChars_chars {l : Chars} {c : Char} (h : c ∈ normChars l) :
    fmtChar c = false ∧ c ≠ '/' ∧ illegalChar c = false := by
  unfold normChars at h
  have h1 := mem_pyStrip h
  have h2 := List.mem_filter.mp h1
  have hill : illegalChar c = false := by simpa using h2.2
  have hrs := mem_replSlash h2.1
  refine ⟨?_, ?_, hill⟩
  · rcases hrs with h3 | h3
    · subst h3; rfl
    · have h4 := List.mem_filter.mp h3.1
      simpa using h4.2
  · rcases hrs with h3 | h3
    · subst h3; simp
    · exact h3.2

theorem normChars_idem (l : Chars) : normChars (normChars l) = normChars l := by
  have hfmt : (normChars l).filter (fun c => !fmtChar c) = normChars l :=
    filter_eq_self_of_all (fun c h => by simp [(normChars_chars h).1])
  have hrs : replSlash (normChars l) = normChars l :=
    replSlash_eq_self_of_no_slash (fun c h => (normChars_chars h).2.1)
  have hill : (normChars l).filter (fun c => !illegalChar c) = normChars l :=
    filter_eq_self_of_all (fun c h => by simp [(normChars_chars h).2.2])
  show pyStrip ((replSlash ((normChars l).filter (fun c => !fmtChar c))).filter
      (fun c => !illegalChar c)) = normChars l
  rw [hfmt, hrs, hill]
  show pyStrip (pyStrip ((replSlash (l.filter (fun c => !fmtChar c))).filter
      (fun c => !illegalChar c))) = normChars l
  rw [pyStrip_idem]
  rfl

/-! ## Generic regex-substitution scanners

Every `re.sub`/`re.findall` of the script is rendered as a left-to-right
scanner: at each position a deterministic matcher either matches (returning
the replacement/capture and the number of extra characters consumed beyond
the first) or fails, in which case the scan advances one character.  This
is exactly Python's leftmost-match, non-overlapping semantics for the
regexes at hand (each has a deterministic backtracking resolution, encoded
in the individual matchers).  Scanners use structural fuel (initialised to
the input length) so that they compute by kernel reduction. -/

/-- Prefix test on character lists. -/
def isPref : Chars → Chars → Bool
  | [], _ => true
  | _ :: _, [] => false
  | p :: ps, c :: cs => p = c && isPref ps cs

/-- Case-insensitive prefix test (for `re.IGNORECASE` literals). -/
def isPrefCI : Chars → Chars → Bool
  | [], _ => true
  | _ :: _, [] => false
  | p :: ps, c :: cs => p.toLower = c.toLower && isPrefCI ps cs

/-- True when the scan position is at the start of a line (`^` with
`re.MULTILINE`): either at the start of the input or just after a newline. -/
def atLineStart : Option Char → Bool
  | none => true
  | some c => c = '\n'

/-- Shortest possibly-empty capture for non-greedy `(.*?)`/`([\s\S]*?)`
style searches: the least prefix after which `close` holds.  Newlines are
allowed inside the capture (`re.DOTALL` or `[\s\S]`). -/
def findClose0 (close : Chars → Bool) : Chars → Option Chars
  | [] => if close [] then some [] else none
  | c :: r => if close (c :: r) then some [] else (findClose0 close r).map (fun x => c :: x)

/-- Shortest nonempty capture, for non-greedy `([\s\S]+?)`. -/
def findClose1 (close : Chars → Bool) : Chars → Option Chars
  | [] => none
  | c :: r => (findClose0 close r).map (fun x => c :: x)

/-- Shortest possibly-empty capture for non-greedy `(.*?)` without
`re.DOTALL`: the capture may not contain a newline. -/
def findDotStar (close : Chars → Bool) : Chars → Option Chars
  | [] => if close [] then some [] else none
  | c :: r =>
    if close (c :: r) then some []
    else if c = '\n' then none
    else (findDotStar close r).map (fun x => c :: x)

/-- Largest index of `w` holding a character other than `x`. -/
def lastIdxNot (x : Char) (w : Chars) : Option Nat :=
  match w.reverse.findIdx? (fun c => !(c = x)) with
  | some r => some (w.length - 1 - r)
  | none => none

/-- Largest index of `w` holding the character `x`. -/
def lastIdxEq (x : Char) (w : Chars) : Option Nat :=
  match w.reverse.findIdx? (fun c => c = x) with
  | some r => some (w.length - 1 - r)
  | none => none

/-- Matching of `\s+(.+)` up to a `re.MULTILINE` `$`: greedy whitespace run
(which may cross newlines), backtracked minimally so that `(.+)` can grab at
least one non-newline character; returns the number of whitespace characters
consumed and the captured text. -/
def wsPlusText (cs : Chars) : Option (Nat × Chars) :=
  let w := cs.takeWhile pySpace
  let t := cs.drop w.length
  if w.isEmpty then none
  else if !t.isEmpty then some (w.length, t.takeWhile (fun c => !(c = '\n')))
  else
    match lastIdxNot '\n' w with
    | some i => if 1 ≤ i then some (i, (w.drop i).takeWhile (fun c => !(c = '\n'))) else none
    | none => none

/-- Matching of `\s*(.+)` up to a `re.MULTILINE` `$` (zero-width whitespace
allowed). -/
def wsStarText (cs : Chars) : Option (Nat × Chars) :=
  let w := cs.takeWhile pySpace
  let t := cs.drop w.length
  if !t.isEmpty then some (w.length, t.takeWhile (fun c => !(c = '\n')))
  else
    match lastIdxNot '\n' w with
    | some i => some (i, (w.drop i).takeWhile (fun c => !(c = '\n')))
    | none => none

/-- Matcher type of a stateless substitution: given the previous character
(for lookbehind/line anchors) and the input at the current position, return
the replacement and the number of characters consumed beyond the first. -/
abbrev SubM := Option Char → Chars → Option (Chars × Nat)

/-- Fueled generic `re.sub` scanner. -/
def applySubF (m : SubM) : Nat → Option Char → Chars → Chars
  | 0, _, _ => []
  | _ + 1, _, [] => []
  | f + 1, prev, c :: rest =>
    match m prev (c :: rest) with
    | some (repl, k) =>
        repl ++ applySubF m f (((c :: rest).take (k + 1)).getLast?) (rest.drop k)
    | none => c :: applySubF m f (some c) rest

/-- Generic `re.sub`. -/
def applySub (m : SubM) (cs : Chars) : Chars := applySubF m cs.length none cs

/-- Fueled generic `re.findall` (single capture group). -/
def findAllF (m : SubM) : Nat → Option Char → Chars → List Chars
  | 0, _, _ => []
  | _ + 1, _, [] => []
  | f + 1, prev, c :: rest =>
    match m prev (c :: rest) with
    | some (cap, k) =>
        cap :: findAllF m f (((c :: rest).take (k + 1)).getLast?) (rest.drop k)
    | none => findAllF m f (some c) rest

/-- Generic `re.findall`. -/
def findAll (m : SubM) (cs : Chars) : List Chars := findAllF m cs.length none cs

/-- Fueled generic `re.search` returning the first capture. -/
def findFirstF (m : SubM) : Nat → Option Char → Chars → Option Chars
  | 0, _, _ => none
  | _ + 1, _, [] => none
  | f + 1, prev, c :: rest =>
    match m prev (c :: rest) with
    | some (cap, _) => some cap
    | none => findFirstF m f (some c) rest

/-- Generic `re.search`. -/
def findFirst (m : SubM) (cs : Chars) : Option Chars := findFirstF m cs.length none cs

/-- Fueled Python `str.replace` (all non-overlapping occurrences, left to
right). -/
def replaceAllF (pat repl : Chars) : Nat → Chars → Chars
  | 0, _ => []
  | _ + 1, [] => []
  | f + 1, c :: rest =>
    if isPref pat (c :: rest) && !pat.isEmpty then
      repl ++ replaceAllF pat repl f ((c :: rest).drop pat.length)
    else
      c :: replaceAllF pat repl f rest

/-- Python `str.replace(pat, repl)`. -/
def replaceAll (pat repl cs : Chars) : Chars := replaceAllF pat repl cs.length cs

/-- Python `content.split(sep)` for a single-character separator. -/
def splitOnChar (x : Char) : Chars → List Chars
  | [] => [[]]
  | c :: r =>
    if c = x then [] :: splitOnChar x r
    else
      match splitOnChar x r with
      | [] => [[c]]
      | l :: ls => (c :: l) :: ls

/-- Rejoin lines with newlines (`'\n'.join`). -/
def joinNl (ls : List Chars) : Chars := List.intercalate ['\n'] ls

/-! ## Temporary placeholder tokens

`convert_markdown_to_org` builds five placeholder tokens
`##TEMP_〈KIND〉_〈8 hex digits of uuid4()〉##`.  The random hex digits are
modelled as fixed distinct strings. -/

/-- The five temporary tokens of `convert_markdown_to_org`. -/
structure TempTokens where
  code : Chars
  bold : Chars
  italic : Chars
  strike : Chars
  link : Chars

/-- Default instantiation of the placeholder tokens (a concrete draw of the
random hex suffixes). -/
def default_temp_tokens : TempTokens :=
  { code := "##TEMP_CODE_aaaa0001##".data
    bold := "##TEMP_BOLD_aaaa0002##".data
    italic := "##TEMP_ITALIC_aaaa0003##".data
    strike := "##TEMP_STRIKE_aaaa0004##".data
    link := "##TEMP_LINK_aaaa0005##".data }

/-- Placeholder `__ORG_ELEMENT_{i}__` used by the preserve/restore pass. -/
def orgElementToken (i : Nat) : Chars :=
  "__ORG_ELEMENT_".data ++ (Nat.repr i).data ++ "__".data

/-- Matcher type of the preserve pass: only the matched length matters (the
matched slice is stored and replaced by a placeholder). -/
abbrev PreM := Option Char → Chars → Option Nat

/-- Fueled scanner for the two preserve substitutions: matched slices are
appended to the accumulator and replaced by `__ORG_ELEMENT_i__`. -/
def applySubAccF (m : PreM) : Nat → List Chars → Option Char → Chars → List Chars × Chars
  | 0, es, _, _ => (es, [])
  | _ + 1, es, _, [] => (es, [])
  | f + 1, es, prev, c :: rest =>
    match m prev (c :: rest) with
    | some k =>
        let matched := (c :: rest).take (k + 1)
        let res := applySubAccF m f (es ++ [matched]) matched.getLast? (rest.drop k)
        (res.1, orgElementToken es.length ++ res.2)
    | none =>
        let res := applySubAccF m f es (some c) rest
        (res.1, c :: res.2)

/-- Preserve-pass substitution. -/
def applySubAcc (m : PreM) (es : List Chars) (cs : Chars) : List Chars × Chars :=
  applySubAccF m cs.length es none cs

/-! ## Matchers for the individual substitutions of `convert_markdown_to_org` -/

/-- Preserve matcher for `\[\[id:[^\]]+\]\[[^\]]+\]\]` (line 244). -/
def orgLinkPreM : PreM := fun _ cs =>
  if isPref "[[id:".data cs then
    let r1 := cs.drop 5
    let a := r1.takeWhile (fun c => !(c = ']'))
    if a.isEmpty then none
    else
      let r2 := r1.drop a.length
      if isPref "][".data r2 then
        let r3 := r2.drop 2
        let b := r3.takeWhile (fun c => !(c = ']'))
        if b.isEmpty then none
        else if isPref "]]".data (r3.drop b.length) then
          some (5 + a.length + 2 + b.length + 2 - 1)
        else none
      else none
  else none

/-- Preserve matcher for `^\*+\s+.*$` with `re.MULTILINE` (line 245). -/
def orgHeadPreM : PreM := fun prev cs =>
  if atLineStart prev then
    let stars := cs.takeWhile (fun c => c = '*')
    if stars.isEmpty then none
    else
      let r1 := cs.drop stars.length
      let ws := r1.takeWhile pySpace
      if ws.isEmpty then none
      else
        let tail := (r1.drop ws.length).takeWhile (fun c => !(c = '\n'))
        some (stars.length + ws.length + tail.length - 1)
  else none

/-- Matcher for the heading substitution `^(#{1,6})\s+(.+)$` (line 248). -/
def headersM : SubM := fun prev cs =>
  if atLineStart prev then
    let hs := cs.takeWhile (fun c => c = '#')
    if hs.isEmpty || 6 < hs.length then none
    else
      match wsPlusText (cs.drop hs.length) with
      | some (w, text) =>
          some (List.replicate hs.length '*' ++ ' ' :: text, hs.length + w + text.length - 1)
      | none => none
  else none

/-- Matcher for the horizontal-rule substitution `^---+$` (line 251). -/
def hrM : SubM := fun prev cs =>
  if atLineStart prev then
    let ds := cs.takeWhile (fun c => c = '-')
    if 3 ≤ ds.length && (decide ((cs.drop ds.length).head? = none) || decide ((cs.drop ds.length).head? = some '\n')) then
      some ("-----".data, ds.length - 1)
    else none
  else none

/-- Closing condition of a fenced code block: `\n` + three backticks at the
end of a line. -/
def fenceClose (b : Chars) : Bool :=
  isPref ('\n' :: btick :: btick :: btick :: []) b &&
    (decide ((b.drop 4).head? = none) || decide ((b.drop 4).head? = some '\n'))

/-- Matcher for the code-fence substitution (line 254, pattern: three
backticks, optional `(\w+)?` language, newline, non-greedy body, newline,
three backticks at end of line, with MULTILINE and DOTALL). -/
def fenceM : SubM := fun prev cs =>
  if atLineStart prev && isPref (btick :: btick :: btick :: []) cs then
    let r1 := cs.drop 3
    let w := r1.takeWhile wordChar
    let r2 := r1.drop w.length
    if decide (r2.head? = some '\n') then
      match findClose0 fenceClose (r2.drop 1) with
      | some body =>
          some ("#+BEGIN_SRC ".data ++ w ++ '\n' :: body ++ "\n#+END_SRC".data,
                3 + w.length + 1 + body.length + 4 - 1)
      | none => none
    else none
  else none

/-- Extra characters consumed by the repetition `(?:\n^>\s*(.+))*` of the
quote-block pattern (line 259). -/
def quoteMoreF : Nat → Chars → Nat
  | 0, _ => 0
  | f + 1, cs =>
    if decide (cs.head? = some '\n') && decide ((cs.drop 1).head? = some '>') then
      match wsStarText (cs.drop 2) with
      | some (w, t) =>
          let c := 2 + w + t.length
          c + quoteMoreF f (cs.drop c)
      | none => 0
    else 0

/-- Matcher for the quote-block substitution `^>\s*(.+)(?:\n^>\s*(.+))*`
(line 259); the replacement strips the quote markers from the whole match
via `.replace("> ", "").replace(">", "")`. -/
def quoteM : SubM := fun prev cs =>
  if atLineStart prev && decide (cs.head? = some '>') then
    match wsStarText (cs.drop 1) with
    | some (w, t) =>
        let c1 := 1 + w + t.length
        let total := c1 + quoteMoreF (cs.drop c1).length (cs.drop c1)
        let g0 := cs.take total
        some ("#+BEGIN_QUOTE\n".data ++ replaceAll [ '>' ] [] (replaceAll ('>' :: ' ' :: []) [] g0) ++
              "\n#+END_QUOTE".data, total - 1)
    | none => none
  else none

/-- Matcher for the inline code span (backtick)([^(backtick)\n]+?)(backtick)
(line 267). -/
def codeSpanM (tok : TempTokens) : SubM := fun _ cs =>
  match cs with
  | c :: rest =>
    if c = btick then
      let cap := rest.takeWhile (fun x => !(x = btick) && !(x = '\n'))
      if cap.isEmpty then none
      else if decide ((rest.drop cap.length).head? = some btick) then
        some (tok.code ++ cap ++ tok.code, cap.length + 1)
      else none
    else none
  | [] => none

/-- Matcher for bold `\*\*([\s\S]+?)\*\*` (line 270). -/
def boldStarM (tok : TempTokens) : SubM := fun _ cs =>
  if isPref "**".data cs then
    match findClose1 (fun b => isPref "**".data b) (cs.drop 2) with
    | some cap => some (tok.bold ++ cap ++ tok.bold, 2 + cap.length + 2 - 1)
    | none => none
  else none

/-- Matcher for bold `__([\s\S]+?)__` (line 271). -/
def boldUnderM (tok : TempTokens) : SubM := fun _ cs =>
  if isPref "__".data cs then
    match findClose1 (fun b => isPref "__".data b) (cs.drop 2) with
    | some cap => some (tok.bold ++ cap ++ tok.bold, 2 + cap.length + 2 - 1)
    | none => none
  else none

/-- Matcher for italic `(?<!\*)\*([\s\S]+?)\*(?!\*)` (line 275). -/
def italicStarM (tok : TempTokens) : SubM := fun prev cs =>
  match cs with
  | '*' :: rest =>
    if decide (prev = some '*') then none
    else
      match findClose1
          (fun b => match b with
            | '*' :: t => !(decide (t.head? = some '*'))
            | _ => false) rest with
      | some cap => some (tok.italic ++ cap ++ tok.italic, 1 + cap.length + 1 - 1)
      | none => none
  | _ => none

/-- Matcher for italic `(?<![a-zA-Z0-9_])_([\s\S]+?)_(?![a-zA-Z0-9_])`
(line 276). -/
def italicUnderM (tok : TempTokens) : SubM := fun prev cs =>
  match cs with
  | '_' :: rest =>
    if (match prev with | none => false | some p => wordChar p) then none
    else
      match findClose1
          (fun b => match b with
            | '_' :: t => (match t.head? with | none => true | some x => !wordChar x)
            | _ => false) rest with
      | some cap => some (tok.italic ++ cap ++ tok.italic, 1 + cap.length + 1 - 1)
      | none => none
  | _ => none

/-- Matcher for strikethrough `~~([^~\n]+?)~~` (line 279). -/
def strikeM (tok : TempTokens) : SubM := fun _ cs =>
  if isPref "~~".data cs then
    let cap := (cs.drop 2).takeWhile (fun x => !(x = '~') && !(x = '\n'))
    if cap.isEmpty then none
    else if isPref "~~".data ((cs.drop 2).drop cap.length) then
      some (tok.strike ++ cap ++ tok.strike, 2 + cap.length + 2 - 1)
    else none
  else none

/-- Matcher for standard markdown links
`(?<!\[)\[([^\]]+?)\]\(([^)]+?)\)` (line 282): the replacement swaps label
and url, wrapped in `TEMP_LINK` tokens. -/
def mdLinkM (tok : TempTokens) : SubM := fun prev cs =>
  match cs with
  | '[' :: rest =>
    if decide (prev = some '[') then none
    else
      let cap1 := rest.takeWhile (fun c => !(c = ']'))
      if cap1.isEmpty then none
      else
        let r2 := rest.drop cap1.length
        if isPref "](".data r2 then
          let r3 := r2.drop 2
          let cap2 := r3.takeWhile (fun c => !(c = ')'))
          if cap2.isEmpty then none
          else if decide ((r3.drop cap2.length).head? = some ')') then
            some (tok.link ++ '[' :: cap2 ++ "][".data ++ cap1 ++ ']' :: tok.link,
                  1 + cap1.length + 2 + cap2.length + 1 - 1)
          else none
        else none
  | _ => none

/-- Matcher for the final `TEMP_LINK\[(.*?)\]\[(.*?)\]TEMP_LINK` restore
substitution (line 297). -/
def tempLinkM (tok : TempTokens) : SubM := fun _ cs =>
  if isPref tok.link cs then
    let r1 := cs.drop tok.link.length
    match r1 with
    | '[' :: r2 =>
      match findDotStar (fun b => isPref "][".data b) r2 with
      | some cap1 =>
        let r3 := r2.drop (cap1.length + 2)
        match findDotStar (fun b => isPref (']' :: tok.link) b) r3 with
        | some cap2 =>
            some ("[[".data ++ cap1 ++ "][".data ++ cap2 ++ "]]".data,
                  tok.link.length + 1 + cap1.length + 2 + cap2.length + 1 + tok.link.length - 1)
        | none => none
      | none => none
    | _ => none
  else none

/-! ## Tables (`convert_tables`, lines 307-344) -/

/-- Test for a markdown table row `^\|.*\|$` on a stripped line. -/
def isTableRow (s : Chars) : Bool :=
  2 ≤ s.length && decide (s.head? = some '|') && decide (s.getLast? = some '|')

/-- Test for a separator row `^\|[-\s|:]+\|$` on a stripped line. -/
def isTableSep (s : Chars) : Bool :=
  3 ≤ s.length && decide (s.head? = some '|') && decide (s.getLast? = some '|') &&
    ((s.drop 1).dropLast.all (fun c => c = '-' || c = '|' || c = ':' || pySpace c))

/-- Renormalized org table row: cells of the stripped line, trimmed and
rejoined (line 324-325). -/
def renderTableRow (s : Chars) : Chars :=
  let cells := (((splitOnChar '|' s).drop 1).dropLast).map pyStrip
  "| ".data ++ List.intercalate " | ".data cells ++ " |".data

/-- Replacement separator line `'|' + '-'*(len(stripped)-2) + '|'`
(line 332). -/
def tableSepLine (s : Chars) : Chars :=
  '|' :: List.replicate (s.length - 2) '-' ++ "|".data

/-- Fueled line loop of `convert_tables`. -/
def tablesGoF : Nat → Bool → List Chars → List Chars
  | 0, _, _ => []
  | _ + 1, _, [] => []
  | f + 1, _, l :: rest =>
    let s := pyStrip l
    if isTableRow s then
      match rest with
      | l2 :: rest2 =>
        if isTableSep (pyStrip l2) then
          renderTableRow s :: tableSepLine s :: tablesGoF f true rest2
        else renderTableRow s :: tablesGoF f true rest
      | [] => [renderTableRow s]
    else
      -- both the `elif in_table` arm and the final `else` arm append the
      -- original line; `in_table` becomes false in the first case and is
      -- already false in the second
      l :: tablesGoF f false rest

/-- Source `convert_tables`. -/
def convert_tables (cs : Chars) : Chars :=
  let ls := splitOnChar '\n' cs
  joinNl (tablesGoF ls.length false ls)

/-- Restore loop for preserved org elements (lines 302-303):
`content.replace(f'__ORG_ELEMENT_{i}__', element)` for each element in
order. -/
def restoreOrgGo (i : Nat) : List Chars → Chars → Chars
  | [], cs => cs
  | e :: es, cs => restoreOrgGo (i + 1) es (replaceAll (orgElementToken i) e cs)

/-- Source `convert_markdown_to_org` (lines 226-305): the fixed sequence of
substitutions.  `tok` carries the five temporary placeholder tokens. -/
def convert_markdown_to_org (tok : TempTokens) (cs : Chars) : Chars :=
  let p1 := applySubAcc orgLinkPreM [] cs
  let p2 := applySubAcc orgHeadPreM p1.1 p1.2
  let c1 := applySub headersM p2.2
  let c2 := applySub hrM c1
  let c3 := applySub fenceM c2
  let c4 := applySub quoteM c3
  let c5 := applySub (codeSpanM tok) c4
  let c6 := applySub (boldStarM tok) c5
  let c7 := applySub (boldUnderM tok) c6
  let c8 := applySub (italicStarM tok) c7
  let c9 := applySub (italicUnderM tok) c8
  let c10 := applySub (strikeM tok) c9
  let c11 := applySub (mdLinkM tok) c10
  let c12 := convert_tables c11
  let c13 := replaceAll tok.code ['='] c12
  let c14 := replaceAll tok.bold ['*'] c13
  let c15 := replaceAll tok.italic ['/'] c14
  let c16 := replaceAll tok.strike ['+'] c15
  let c17 := applySub (tempLinkM tok) c16
  restoreOrgGo 0 p2.1 c17

/-! ## Task states and list-to-outline conversion -/

/-- Source `task_states` mapping (lines 58-67). -/
def task_states : List (String × String) :=
  [("TODO", "TODO"), ("DONE", "DONE"), ("LATER", "LATER"), ("NOW", "TODO"),
   ("DOING", "DOING"), ("WAITING", "WAITING"), ("CANCELLED", "CANCELLED"),
   ("OVERDUE", "TODO")]

/-- Python dict lookup (`d[k]` / `d.get(k)`) on an association list whose
most recent binding comes first. -/
def alookup (m : List (String × String)) (k : String) : Option String :=
  match m with
  | [] => none
  | (a, v) :: r => if a = k then some v else alookup r k

/-- Parse of the checkbox pattern `\[( |x|X)\]\s+(.+)` anchored by
`re.match` (line 370). -/
def checkboxParse (text : Chars) : Option (Char × Chars) :=
  match text with
  | '[' :: c :: ']' :: r =>
    if c = ' ' || c = 'x' || c = 'X' then
      match wsPlusText r with
      | some (_, t) => some (c, t)
      | none => none
    else none
  | _ => none

/-- Parse of the task-keyword pattern
`^(TODO|DONE|LATER|NOW|DOING|WAITING|CANCELLED|OVERDUE)\s+(.+)$`
(line 380): alternatives tried in source order. -/
def kwParseGo : List String → Chars → Option (String × Chars)
  | [], _ => none
  | k :: ks, text =>
    if isPref k.data text then
      match wsPlusText (text.drop k.length) with
      | some (_, t) => some (k, t)
      | none => kwParseGo ks text
    else kwParseGo ks text

/-- Keyword parse over the keys of `task_states`. -/
def kwParse (text : Chars) : Option (String × Chars) :=
  kwParseGo (task_states.map (fun p => p.1)) text

/-- Heading text produced for one recognized list item at a given level
(lines 367-391 of `convert_hierarchical_structure`). -/
def listItemHeading (level : Nat) (text : Chars) : Chars :=
  match checkboxParse text with
  | some (state, taskText) =>
      let org_state := if state.toLower = 'x' then "DONE" else "TODO"
      List.replicate level '*' ++ ' ' :: org_state.data ++ ' ' :: taskText
  | none =>
    match kwParse text with
    | some (kw, taskText) =>
        let org_state := (alookup task_states kw).getD "TODO"
        List.replicate level '*' ++ ' ' :: org_state.data ++ ' ' :: taskText
    | none => List.replicate level '*' ++ ' ' :: text

/-- Per-line conversion of `convert_hierarchical_structure` (lines
351-393): a line matching `^(\s*)-\s+(.+)$` becomes a heading whose level
is `min 6 (indent // 2 + 1)` where each tab counts 2 and each space 1. -/
def hierLine (line : Chars) : Chars :=
  let ind := line.takeWhile pySpace
  match line.drop ind.length with
  | '-' :: r2 =>
    (match wsPlusText r2 with
     | some (_, text) =>
        let indent := ind.count '\t' * 2 + ind.count ' '
        let level := min (indent / 2 + 1) 6
        listItemHeading level text
     | none => line)
  | _ => line

/-- Source `convert_hierarchical_structure` (lines 346-395). -/
def convert_hierarchical_structure (cs : Chars) : Chars :=
  joinNl ((splitOnChar '\n' cs).map hierLine)

/-- Source `convert_tasks` (lines 397-401): the task logic moved into
`convert_hierarchical_structure`, this function returns its input. -/
def convert_tasks (cs : Chars) : Chars := cs

/-! ## Conversion state and the registries -/

/-- Property values extracted from front matter or inline properties.  YAML
can produce list values (for `tags`); everything else is a string. -/
inductive PVal where
  | str (s : String)
  | list (l : List String)
deriving DecidableEq, Repr

/-- Python truthiness of a property value. -/
def pyTruthy : PVal → Bool
  | .str s => !(s = "")
  | .list l => !l.isEmpty

/-- Display form of a property value in an f-string (the Python `repr` of
a list, the string itself otherwise). -/
def pvStr : PVal → String
  | .str s => s
  | .list l =>
      let q := String.singleton (Char.ofNat 39)
      "[" ++ String.intercalate ", " (l.map (fun s => q ++ s ++ q)) ++ "]"

/-- Ordered-dict update: replace in place if the key exists, else append
(Python dict assignment semantics, insertion-ordered). -/
def dictSet (m : List (String × PVal)) (k : String) (v : PVal) : List (String × PVal) :=
  match m with
  | [] => [(k, v)]
  | (a, w) :: r => if a = k then (a, v) :: r else (a, w) :: dictSet r k v

/-- Ordered-dict lookup. -/
def dictGet (m : List (String × PVal)) (k : String) : Option PVal :=
  match m with
  | [] => none
  | (a, v) :: r => if a = k then some v else dictGet r k

/-- State of `LogseqToOrgRoamConverter`: the identifier registries, the
known/pending page-name sets, the title map and the deterministic
fresh-identifier supply standing in for `uuid.uuid4()`. -/
structure ConvState where
  page_ids : List (String × String)
  block_ids : List (String × String)
  existing_pages : List String
  missing_pages : List String
  file_to_title : List (String × String)
  counter : Nat
deriving DecidableEq, Repr

/-- Initial converter state. -/
def initState : ConvState :=
  { page_ids := [], block_ids := [], existing_pages := [], missing_pages := [],
    file_to_title := [], counter := 0 }

/-- Deterministic stand-in for `generate_uuid` / `uuid.uuid4()`: the `n`-th
identifier drawn from the supply.  Distinct draws give distinct identifiers
(the length is strictly increasing in `n`), which is the property the
script relies on. -/
def generate_uuid (n : Nat) : String :=
  ⟨'u' :: 'u' :: 'i' :: 'd' :: '-' :: List.replicate n 'x'⟩

/-- Draw a fresh identifier. -/
def freshId (st : ConvState) : String × ConvState :=
  (generate_uuid st.counter, { st with counter := st.counter + 1 })

/-- Python `set.add`, modelled with deterministic (insertion-order)
iteration. -/
def addSet (x : String) (s : List String) : List String :=
  if x ∈ s then s else s ++ [x]

/-! ## Stateful substitutions: double links, block references, embeds -/

/-- Matcher type of a stateful substitution. -/
abbrev SubStM := ConvState → Option Char → Chars → Option (Chars × Nat × ConvState)

/-- Fueled generic stateful `re.sub` scanner. -/
def applySubStF (m : SubStM) : Nat → ConvState → Option Char → Chars → ConvState × Chars
  | 0, st, _, _ => (st, [])
  | _ + 1, st, _, [] => (st, [])
  | f + 1, st, prev, c :: rest =>
    match m st prev (c :: rest) with
    | some (repl, k, st2) =>
        let res := applySubStF m f st2 (((c :: rest).take (k + 1)).getLast?) (rest.drop k)
        (res.1, repl ++ res.2)
    | none =>
        let res := applySubStF m f st (some c) rest
        (res.1, c :: res.2)

/-- Generic stateful `re.sub`. -/
def applySubSt (m : SubStM) (st : ConvState) (cs : Chars) : ConvState × Chars :=
  applySubStF m cs.length st none cs

/-- Match of `\[\[([^\]]+?)\]\]` at the current position: capture and extra
consumed characters. -/
def doubleLinkCore (cs : Chars) : Option (Chars × Nat) :=
  if isPref "[[".data cs then
    let cap := (cs.drop 2).takeWhile (fun c => !(c = ']'))
    if cap.isEmpty then none
    else if isPref "]]".data ((cs.drop 2).drop cap.length) then
      some (cap, 2 + cap.length + 2 - 1)
    else none
  else none

/-- Source `replace_link` (lines 405-430): split an optional alias, strip,
normalize, resolve or lazily create the page identifier (recording the page
as missing in the fallback), and build `[[id:<id>][<alias>]]`. -/
def replace_link (st : ConvState) (link_text : Chars) : Chars × ConvState :=
  let pa :=
    if '|' ∈ link_text then
      let page := link_text.takeWhile (fun c => !(c = '|'))
      let aliasTxt := link_text.drop (page.length + 1)
      (pyStrip page, pyStrip aliasTxt)
    else (pyStrip link_text, pyStrip link_text)
  let normalized_name : String := ⟨normChars pa.1⟩
  match alookup st.page_ids normalized_name with
  | some page_id =>
      ("[[id:".data ++ page_id.data ++ "][".data ++ pa.2 ++ "]]".data, st)
  | none =>
      let page_id := generate_uuid st.counter
      let st2 := { st with counter := st.counter + 1,
                           page_ids := (normalized_name, page_id) :: st.page_ids,
                           missing_pages := addSet normalized_name st.missing_pages }
      ("[[id:".data ++ page_id.data ++ "][".data ++ pa.2 ++ "]]".data, st2)

/-- First double-link pattern `\[\[([^\]]+?)\]\]` (line 434). -/
def dlinkM1 : SubStM := fun st _ cs =>
  match doubleLinkCore cs with
  | some (cap, k) =>
      let r := replace_link st cap
      some (r.1, k, r.2)
  | none => none

/-- Second double-link pattern `\[\[([^\]]+?)\]\](?!\])` (line 435). -/
def dlinkM2 : SubStM := fun st _ cs =>
  match doubleLinkCore cs with
  | some (cap, k) =>
      if decide ((cs.drop (k + 1)).head? = some ']') then none
      else
        let r := replace_link st cap
        some (r.1, k, r.2)
  | none => none

/-- Source `convert_double_links` (lines 403-441): both patterns applied in
order over the whole content. -/
def convert_double_links (st : ConvState) (cs : Chars) : ConvState × Chars :=
  let r1 := applySubSt dlinkM1 st cs
  applySubSt dlinkM2 r1.1 r1.2

/-- Match of `\(\(([^)]+?)\)\)` at the current position. -/
def blockRefCore (cs : Chars) : Option (Chars × Nat) :=
  if isPref "((".data cs then
    let cap := (cs.drop 2).takeWhile (fun c => !(c = ')'))
    if cap.isEmpty then none
    else if isPref "))".data ((cs.drop 2).drop cap.length) then
      some (cap, 2 + cap.length + 2 - 1)
    else none
  else none

/-- Get-or-create on the block-identifier registry, as inlined at lines
447-448 and 471-472 of the source. -/
def getOrCreateBlockId (st : ConvState) (tok : String) : String × ConvState :=
  match alookup st.block_ids tok with
  | some i => (i, st)
  | none =>
      let i := generate_uuid st.counter
      (i, { st with counter := st.counter + 1, block_ids := (tok, i) :: st.block_ids })

/-- Matcher of `convert_block_references` (line 452). -/
def blockRefM : SubStM := fun st _ cs =>
  match blockRefCore cs with
  | some (cap, k) =>
      let r := getOrCreateBlockId st ⟨cap⟩
      some ("[[id:".data ++ r.1.data ++ "]]".data, k, r.2)
  | none => none

/-- Source `convert_block_references` (lines 443-454). -/
def convert_block_references (st : ConvState) (cs : Chars) : ConvState × Chars :=
  applySubSt blockRefM st cs

/-- Source `replace_embed` (lines 458-475): inner page link beats inner
block reference; anything else is returned unchanged. -/
def replace_embed (st : ConvState) (embedContent whole : Chars) : Chars × ConvState :=
  match findFirst (fun _ cs => doubleLinkCore cs) embedContent with
  | some pcap =>
      ("#+INCLUDE: \x22".data ++ normChars pcap ++ ".org\x22".data, st)
  | none =>
    match findFirst (fun _ cs => blockRefCore cs) embedContent with
    | some bcap =>
        let r := getOrCreateBlockId st ⟨bcap⟩
        ("#+INCLUDE: \x22[[id:".data ++ r.1.data ++ "]]\x22".data, r.2)
    | none => (whole, st)

/-- Matcher of the embed pattern (with IGNORECASE): two opening braces,
`embed`, `\s+`, a nonempty brace-free capture, two closing braces
(line 478).  When the whitespace run is followed directly by the closing
braces, Python's backtracking lets the capture be the last whitespace
character; this is reproduced. -/
def embedM : SubStM := fun st _ cs =>
  if isPref ('\x7b' :: '\x7b' :: []) cs && isPrefCI "embed".data (cs.drop 2) then
    let r1 := cs.drop 7
    let ws := r1.takeWhile pySpace
    if ws.isEmpty then none
    else
      let r2 := r1.drop ws.length
      let cap := r2.takeWhile (fun c => !(c = '\x7d'))
      if !cap.isEmpty then
        if isPref ('\x7d' :: '\x7d' :: []) (r2.drop cap.length) then
          let total := 7 + ws.length + cap.length + 2
          let r := replace_embed st cap (cs.take total)
          some (r.1, total - 1, r.2)
        else none
      else
        if 2 ≤ ws.length && isPref ('\x7d' :: '\x7d' :: []) r2 then
          let total := 7 + ws.length + 2
          let r := replace_embed st (ws.drop (ws.length - 1)) (cs.take total)
          some (r.1, total - 1, r.2)
        else none
  else none

/-- Source `convert_block_embeddings` (lines 456-480). -/
def convert_block_embeddings (st : ConvState) (cs : Chars) : ConvState × Chars :=
  applySubSt embedM st cs

/-! ## Asset paths (`update_asset_paths`, lines 538-548) -/

/-- Matcher for one of the four asset substitutions: optional `!`, then
`\[(.*?)\]\(<dir>([^)]+?)\)` where `dir` is `../assets/` or `assets/`; the
replacement always uses `../assets/`. -/
def assetM (bang : Bool) (dir : Chars) : SubM := fun _ cs =>
  let body := if bang then
      (match cs with
       | '!' :: r => some r
       | _ => none)
    else some cs
  match body with
  | none => none
  | some b =>
    match b with
    | '[' :: r1 =>
      (match findDotStar (fun x => isPref (']' :: '(' :: dir) x) r1 with
       | some cap1 =>
         let r2 := r1.drop (cap1.length + 2 + dir.length)
         let cap2 := r2.takeWhile (fun c => !(c = ')'))
         if cap2.isEmpty then none
         else if decide ((r2.drop cap2.length).head? = some ')') then
           let pfx := if bang then 1 else 0
           some ((if bang then "![".data else "[".data) ++ cap1 ++ "](../assets/".data ++
                   cap2 ++ ")".data,
                 pfx + 1 + cap1.length + 2 + dir.length + cap2.length + 1 - 1)
         else none
       | none => none)
    | _ => none

/-- Source `update_asset_paths` (lines 538-548): the four substitutions in
source order. -/
def update_asset_paths (cs : Chars) : Chars :=
  let c1 := applySub (assetM true "../assets/".data) cs
  let c2 := applySub (assetM true "assets/".data) c1
  let c3 := applySub (assetM false "../assets/".data) c2
  applySub (assetM false "assets/".data) c3

/-! ## Properties (`extract_properties`, lines 482-508) -/

/-- Split of the front-matter pattern `^---\n(.*?)\n---\n(.*)$` under
`re.match` with DOTALL: the non-greedy body and the remaining content. -/
def yamlFrontSplit (cs : Chars) : Option (Chars × Chars) :=
  if isPref "---\n".data cs then
    match findClose0 (fun b => isPref "\n---\n".data b) (cs.drop 4) with
    | some body => some (body, (cs.drop 4).drop (body.length + 5))
    | none => none
  else none

/-- Parse of one front-matter line as `key: value` (word-character key). -/
def yamlLine (l : Chars) : Option (String × PVal) :=
  let k := l.takeWhile wordChar
  if k.isEmpty then none
  else
    match l.drop k.length with
    | ':' :: rest =>
      let v := pyStrip rest
      if decide (v.head? = some '[') && decide (v.getLast? = some ']') then
        some (⟨k⟩, .list ((splitOnChar ',' ((v.drop 1).dropLast)).map
          (fun x => (⟨pyStrip x⟩ : String))))
      else some (⟨k⟩, .str ⟨v⟩)
    | _ => none

/-- Modelled from the spec: the external `yaml.safe_load` collaborator (the
PyYAML library is not part of this repository).  Front matter whose
nonblank lines all have the shape `key: value` is parsed as a mapping
(flow-style `[a, b]` values become lists); anything else is treated as a
non-mapping value, for which the script keeps `properties` untouched while
still dropping the front-matter block. -/
def yaml_safe_load (body : Chars) : Option (List (String × PVal)) :=
  let ls := (splitOnChar '\n' body).filter (fun l => !(l.all pySpace))
  if ls.all (fun l => (yamlLine l).isSome) then
    some (ls.foldl (fun acc l =>
      match yamlLine l with
      | some (k, v) => dictSet acc k v
      | none => acc) [])
  else none

/-- Core match of the inline-property pattern `^(\w+)::\s*(.+)$` with
MULTILINE (lines 498-503): key, value, extra consumed characters. -/
def inlinePropCore (prev : Option Char) (cs : Chars) : Option (Chars × Chars × Nat) :=
  if atLineStart prev then
    let k := cs.takeWhile wordChar
    if k.isEmpty then none
    else if isPref "::".data (cs.drop k.length) then
      match wsStarText (cs.drop (k.length + 2)) with
      | some (w, v) => some (k, v, k.length + 2 + w + v.length - 1)
      | none => none
    else none
  else none

/-- Fueled `re.findall` for the two-group inline-property pattern. -/
def inlinePropsAllF : Nat → Option Char → Chars → List (Chars × Chars)
  | 0, _, _ => []
  | _ + 1, _, [] => []
  | f + 1, prev, c :: rest =>
    match inlinePropCore prev (c :: rest) with
    | some (k, v, kk) =>
        (k, v) :: inlinePropsAllF f (((c :: rest).take (kk + 1)).getLast?) (rest.drop kk)
    | none => inlinePropsAllF f (some c) rest

/-- Substitution matcher removing inline property lines (line 503). -/
def inlinePropSubM : SubM := fun prev cs =>
  match inlinePropCore prev cs with
  | some (_, _, k) => some ([], k)
  | none => none

/-- Matcher for the blank-line cleanup `\n\s*\n\s*\n → \n\n` (line 506):
matches a newline whose following whitespace run contains at least two more
newlines, consuming through the last of them. -/
def blankCleanupM : SubM := fun _ cs =>
  match cs with
  | '\n' :: rest =>
    let w := rest.takeWhile pySpace
    if 2 ≤ w.count '\n' then
      match lastIdxEq '\n' w with
      | some i => some ("\n\n".data, i + 1)
      | none => none
    else none
  | _ => none

/-- Source `extract_properties` (lines 482-508). -/
def extract_properties (cs : Chars) : (List (String × PVal)) × Chars :=
  let pc :=
    match yamlFrontSplit cs with
    | some (body, rest) =>
      (match yaml_safe_load body with
       | some d =>
           (d.foldl (fun acc (p : String × PVal) => dictSet acc p.1 p.2)
             ([] : List (String × PVal)), rest)
       | none => (([] : List (String × PVal)), rest))
    | none => (([] : List (String × PVal)), cs)
  let pairs := inlinePropsAllF pc.2.length none pc.2
  let props := pairs.foldl (fun acc p => dictSet acc (⟨p.1⟩ : String) (.str ⟨p.2⟩)) pc.1
  let c2 := applySub inlinePropSubM pc.2
  (props, applySub blankCleanupM c2)

/-! ## Header generation and per-file conversion -/

/-- Python `str.upper` (ASCII model). -/
def upperS (s : String) : String := ⟨s.data.map Char.toUpper⟩

/-- Source `create_org_header` (lines 510-536).  The returned state accounts
for the eagerly evaluated `self.generate_uuid()` default argument of
`self.page_ids.get(title, ...)`; nothing is stored in any registry. -/
def create_org_header (st : ConvState) (title : String)
    (properties : List (String × PVal)) : String × ConvState :=
  let fresh := freshId st
  let page_id := (alookup st.page_ids title).getD fresh.1
  let propLines := properties.foldl (fun acc p =>
      if upperS p.1 = "ID" || upperS p.1 = "TITLE" then acc
      else acc ++ ":" ++ upperS p.1 ++ ": " ++ pvStr p.2 ++ "\n") ""
  let tagsLine :=
    match dictGet properties "tags" with
    | some (.list l) =>
        "#+FILETAGS: " ++ String.intercalate " " (l.map (fun t => ":" ++ t ++ ":")) ++ "\n"
    | some (.str s) =>
        "#+FILETAGS: " ++ (if s.startsWith ":" then s else ":" ++ s ++ ":") ++ "\n"
    | none => ""
  (":PROPERTIES:\n:ID: " ++ page_id ++ "\n" ++ propLines ++ ":END:\n#+TITLE: " ++
     title ++ "\n" ++ tagsLine ++ "\n", fresh.2)

/-- Matcher for the heading-table post-fix `(^(\*)+[ ])\|(.*)` with
MULTILINE, replacement `\1table \n|\3` (lines 579-582). -/
def tablePostfixM : SubM := fun prev cs =>
  if atLineStart prev then
    let stars := cs.takeWhile (fun c => c = '*')
    if stars.isEmpty then none
    else
      match cs.drop stars.length with
      | ' ' :: '|' :: r3 =>
        let rest := r3.takeWhile (fun c => !(c = '\n'))
        some (stars ++ ' ' :: "table \n|".data ++ rest,
              stars.length + 2 + rest.length - 1)
      | _ => none
  else none

/-- Matcher for the date rewrite `(\d\d\d\d)_(\d\d)_(\d\d) → \1-\2-\3`
(lines 585-587 and 663-665). -/
def dateSubM : SubM := fun _ cs =>
  match cs with
  | a :: b :: c :: d :: '_' :: e :: f :: '_' :: g :: h :: _ =>
    if digitChar a && digitChar b && digitChar c && digitChar d &&
       digitChar e && digitChar f && digitChar g && digitChar h then
      some ([a, b, c, d, '-', e, f, '-', g, h], 9)
    else none
  | _ => none

/-- Content transformations of `convert_file` in source order (lines
565-571): markdown conversion, task pass, list-to-outline pass, double
links, block references, block embeds, asset paths. -/
def convert_file_body (tok : TempTokens) (st : ConvState) (cs : Chars) : ConvState × Chars :=
  let c1 := convert_markdown_to_org tok cs
  let c2 := convert_tasks c1
  let c3 := convert_hierarchical_structure c2
  let r4 := convert_double_links st c3
  let r5 := convert_block_references r4.1 r4.2
  let r6 := convert_block_embeddings r5.1 r5.2
  (r6.1, update_asset_paths r6.2)

/-- Source `convert_file` (lines 550-600) on one document: returns the
written org text and the updated state. -/
def convert_file (tok : TempTokens) (st : ConvState) (stem : String)
    (content : String) : String × ConvState :=
  let pc := extract_properties content.data
  let properties := pc.1
  let title :=
    match dictGet properties "title" with
    | some v =>
        if pyTruthy v then pvStr v else (alookup st.file_to_title stem).getD stem
    | none => (alookup st.file_to_title stem).getD stem
  let body := convert_file_body tok st pc.2
  let hd := create_org_header body.1 title properties
  let org0 := hd.1.data ++ pyStrip body.2
  let org1 := applySub tablePostfixM org0
  let org2 := applySub dateSubM org1
  (⟨org2⟩, hd.2)

/-! ## The three passes and the full run -/

/-- Source corpus: the `pages` and `journals` folders, each a list of
(file-name stem, raw content). -/
structure Corpus where
  pages : List (String × String)
  journals : List (String × String)

/-- Files in iteration order (`pages` then `journals`, as the source loops
over `['pages', 'journals']`). -/
def corpusFiles (c : Corpus) : List (String × String × String) :=
  c.pages.map (fun p => ("pages", p.1, p.2)) ++
    c.journals.map (fun p => ("journals", p.1, p.2))

/-- Title-line matcher `^title:\s*(.+)$` with IGNORECASE and MULTILINE
(line 125). -/
def titleLineM : SubM := fun prev cs =>
  if atLineStart prev && isPrefCI "title:".data cs then
    match wsStarText (cs.drop 6) with
    | some (w, t) => some (t, 6 + w + t.length - 1)
    | none => none
  else none

/-- First-heading matcher `^#\s+(.+)$` with MULTILINE (line 130). -/
def firstHeadingM : SubM := fun prev cs =>
  match cs with
  | '#' :: r =>
    if atLineStart prev then
      match wsPlusText r with
      | some (w, t) => some (t, 1 + w + t.length - 1)
      | none => none
    else none
  | _ => none

/-- Scanner step for one file (lines 114-138): register the stem, assign a
fresh page identifier, derive the title. -/
def scanFile (st : ConvState) (stem : String) (content : String) : ConvState :=
  let fresh := freshId st
  let st1 := { fresh.2 with
    existing_pages := addSet stem fresh.2.existing_pages,
    page_ids := (stem, fresh.1) :: fresh.2.page_ids }
  let title :=
    match findFirst titleLineM content.data with
    | some t => (⟨pyStrip t⟩ : String)
    | none =>
      match findFirst firstHeadingM content.data with
      | some t => (⟨pyStrip t⟩ : String)
      | none => stem
  { st1 with file_to_title := (stem, title) :: st1.file_to_title }

/-- Fold step of the scanner pass over one (folder, stem, content) file. -/
def scanStep (s : ConvState) (f : String × String × String) : ConvState :=
  scanFile s f.2.1 f.2.2

/-- Source `scan_existing_pages` (lines 105-140). -/
def scan_existing_pages (c : Corpus) (st : ConvState) : ConvState :=
  (corpusFiles c).foldl scanStep st

/-- Collector pattern 1: `\[\[([^\]]+?)\]\]` (line 148). -/
def collP1 : SubM := fun _ cs => doubleLinkCore cs

/-- Collector pattern 2: `\[\[([^\]|]+?)\|[^\]]*?\]\]` (line 149). -/
def collP2 : SubM := fun _ cs =>
  if isPref "[[".data cs then
    let cap := (cs.drop 2).takeWhile (fun c => !(c = ']') && !(c = '|'))
    if cap.isEmpty then none
    else
      match (cs.drop 2).drop cap.length with
      | '|' :: r2 =>
        let skip := r2.takeWhile (fun c => !(c = ']'))
        if isPref "]]".data (r2.drop skip.length) then
          some (cap, 2 + cap.length + 1 + skip.length + 2 - 1)
        else none
      | _ => none
  else none

/-- Collector pattern 3: `\[\[([^\]]+?)\]\]\([^)]*?\)` (line 150). -/
def collP3 : SubM := fun _ cs =>
  match doubleLinkCore cs with
  | some (cap, k) =>
    (match cs.drop (k + 1) with
     | '(' :: r2 =>
       let skip := r2.takeWhile (fun c => !(c = ')'))
       if decide ((r2.drop skip.length).head? = some ')') then
         some (cap, k + 1 + skip.length + 1)
       else none
     | _ => none)
  | none => none

/-- Collector pattern 4: embed-of-page (line 151). -/
def collP4 : SubM := fun _ cs =>
  if isPref ('\x7b' :: '\x7b' :: []) cs && isPrefCI "embed".data (cs.drop 2) then
    let r1 := cs.drop 7
    let ws := r1.takeWhile pySpace
    if ws.isEmpty then none
    else
      match doubleLinkCore (r1.drop ws.length) with
      | some (cap, k) =>
        if isPref ('\x7d' :: '\x7d' :: []) ((r1.drop ws.length).drop (k + 1)) then
          some (cap, 7 + ws.length + (k + 1) + 2 - 1)
        else none
      | none => none
  else none

/-- Collector pattern 5: embed-of-block-reference (line 152). -/
def collP5 : SubM := fun _ cs =>
  if isPref ('\x7b' :: '\x7b' :: []) cs && isPrefCI "embed".data (cs.drop 2) then
    let r1 := cs.drop 7
    let ws := r1.takeWhile pySpace
    if ws.isEmpty then none
    else
      match blockRefCore (r1.drop ws.length) with
      | some (cap, k) =>
        if isPref ('\x7d' :: '\x7d' :: []) ((r1.drop ws.length).drop (k + 1)) then
          some (cap, 7 + ws.length + (k + 1) + 2 - 1)
        else none
      | none => none
  else none

/-- Edge-case pattern `(?:^|\s)\[\[([^\]]+?)\]\](?:\s|$)` (line 157). -/
def collE1 : SubM := fun prev cs =>
  let core := fun (off : Nat) =>
    match doubleLinkCore (cs.drop off) with
    | some (cap, k) =>
      (match ((cs.drop off).drop (k + 1)).head? with
       | some w => if pySpace w then some (cap, off + k + 1) else none
       | none => some (cap, off + k))
    | none => none
  if atLineStart prev then
    match core 0 with
    | some r => some r
    | none =>
      match cs.head? with
      | some w => if pySpace w then core 1 else none
      | none => none
  else
    match cs.head? with
    | some w => if pySpace w then core 1 else none
    | none => none

/-- Edge-case pattern `(?<=\s)\[\[([^\]]+?)\]\](?=\s)` (line 158). -/
def collE2 : SubM := fun prev cs =>
  match prev with
  | some p =>
    if pySpace p then
      match doubleLinkCore cs with
      | some (cap, k) =>
        (match (cs.drop (k + 1)).head? with
         | some w => if pySpace w then some (cap, k) else none
         | none => none)
      | none => none
    else none
  | none => none

/-- Edge-case pattern `(?<=^)\[\[([^\]]+?)\]\]` (line 159). -/
def collE3 : SubM := fun prev cs =>
  if atLineStart prev then doubleLinkCore cs else none

/-- Edge-case pattern `\[\[([^\]]+?)\]\](?=$)` (line 160). -/
def collE4 : SubM := fun _ cs =>
  match doubleLinkCore cs with
  | some (cap, k) =>
    (match (cs.drop (k + 1)).head? with
     | none => some (cap, k)
     | some w => if decide (w = '\n') then some (cap, k) else none)
  | none => none

/-- Edge-case pattern `(?<=\n)\[\[([^\]]+?)\]\]` (line 161). -/
def collE5 : SubM := fun prev cs =>
  if decide (prev = some '\n') then doubleLinkCore cs else none

/-- Edge-case pattern `\[\[([^\]]+?)\]\](?=\n)` (line 162). -/
def collE6 : SubM := fun _ cs =>
  match doubleLinkCore cs with
  | some (cap, k) =>
      if decide ((cs.drop (k + 1)).head? = some '\n') then some (cap, k) else none
  | none => none

/-- The ordered battery `all_patterns = link_patterns + edge_case_patterns`
(line 165). -/
def all_link_patterns : List SubM :=
  [collP1, collP2, collP3, collP4, collP5, collE1, collE2, collE3, collE4,
   collE5, collE6]

/-- Collector step for one file (lines 172-189). -/
def collectFile (st : ConvState) (content : String) : ConvState :=
  all_link_patterns.foldl (fun s pat =>
    (findAll pat content.data).foldl (fun s2 cap =>
      let page_name : String := ⟨normChars cap⟩
      if !(page_name = "") && !(decide (page_name ∈ s2.existing_pages)) then
        { s2 with missing_pages := addSet page_name s2.missing_pages }
      else s2) s) st

/-- Fold step of the collector pass over one file. -/
def collectStep (s : ConvState) (f : String × String × String) : ConvState :=
  collectFile s f.2.2

/-- Source `collect_missing_pages` (lines 142-196). -/
def collect_missing_pages (c : Corpus) (st : ConvState) : ConvState :=
  (corpusFiles c).foldl collectStep st

/-- Stub text of `create_missing_pages` (lines 207-214); `now` is the
formatted `datetime.now()` of the run. -/
def stub_content (page_id page_name now : String) : String :=
  ":PROPERTIES:\n:ID: " ++ page_id ++ "\n:END:\n#+TITLE: " ++ page_name ++
    "\n#+FILETAGS: :stub:\n\nThis page was automatically created during Logseq migration on " ++
    now ++ ".\n"

/-- An output file: folder, file-name stem, content. -/
abbrev OutFile := String × String × String

/-- Fold step of the stub-materialization pass over one pending name. -/
def createMissingStep (now : String) (acc : List OutFile × ConvState)
    (page_name : String) : List OutFile × ConvState :=
  let fresh := freshId acc.2
  let st2 := { fresh.2 with page_ids := (page_name, fresh.1) :: fresh.2.page_ids }
  (acc.1 ++ [("pages", page_name, stub_content fresh.1 page_name now)], st2)

/-- Source `create_missing_pages` (lines 198-224): one stub per pending
name, each assigned a fresh identifier. -/
def create_missing_pages (now : String) (st : ConvState) : List OutFile × ConvState :=
  st.missing_pages.foldl (createMissingStep now) ([], st)

/-- Date rewrite applied to an output file-name stem (lines 663-665). -/
def dateSubStem (stem : String) : String := ⟨applySub dateSubM stem.data⟩

/-- Fold step of the conversion pass over one file. -/
def convertStep (tok : TempTokens) (acc : List OutFile × ConvState)
    (f : String × String × String) : List OutFile × ConvState :=
  let r := convert_file tok acc.2 f.2.1 f.2.2
  (acc.1 ++ [(f.1, dateSubStem f.2.1, r.1)], r.2)

/-- Source `convert_all` (lines 628-674): scan, collect, materialize stubs,
then convert every source document (asset copying is out of scope). -/
def convert_all (tok : TempTokens) (now : String) (c : Corpus) :
    List OutFile × ConvState :=
  let st1 := scan_existing_pages c initState
  let st2 := collect_missing_pages c st1
  let stubs := create_missing_pages now st2
  let conv := (corpusFiles c).foldl (convertStep tok) ([], stubs.2)
  (stubs.1 ++ conv.1, conv.2)

/-- Claim C7: the page-name normalization function is pure and idempotent
(`normalize_page_name (normalize_page_name n) = normalize_page_name n` for
every string `n`). -/
theorem C7_normalize_idempotent (s : String) :
    normalize_page_name (normalize_page_name s) = normalize_page_name s := by
  unfold normalize_page_name
  simp only [normChars_idem]

/-! ## Concrete runs used by the claim theorems -/

/-- One-file corpus whose only page contains a single emphasised link. -/
def c1_corpus : Corpus := { pages := [("note", "[[*x*]]")], journals := [] }

/-- Full run over `c1_corpus`. -/
def c1_run : List OutFile × ConvState :=
  convert_all default_temp_tokens "2026-10-12 10:00:00" c1_corpus

/-- State with one registered page (the normalized name `a___b`). -/
def c3_state : ConvState :=
  { initState with page_ids := [("a___b", generate_uuid 0)], counter := 1 }

/-- Claim C10: the nested-emphasis input converts with properly nested
bold/italic delimiters and no temporary placeholder token left in the
output. -/
theorem C10_nested_emphasis :
    convert_markdown_to_org default_temp_tokens "**bold *and italic* text**".data =
      "*bold /and italic/ text*".data := by decide

/-- In the full per-document conversion the inner double link of a page
embed is rewritten before `convert_block_embeddings` runs, so the embed is
left as an un-included `\x7b\x7bembed [[id:...][page]]\x7d\x7d`; a block
embed's inner token is likewise rewritten first, so the embed becomes an
include of a bogus page name built from the block identifier.  In
isolation, `convert_block_embeddings` does produce the include directive
the claim (and its own docstring) describe. -/
theorem C4_embed_conversion_order_bug :
    (convert_file_body default_temp_tokens initState
        "\x7b\x7bembed [[page]]\x7d\x7d".data).2 =
      ("\x7b\x7bembed [[id:" ++ generate_uuid 0 ++ "][page]]\x7d\x7d").data ∧
    (convert_file_body default_temp_tokens initState
        "\x7b\x7bembed ((tok))\x7d\x7d".data).2 =
      ("#+INCLUDE: \x22id" ++ generate_uuid 0 ++ ".org\x22").data ∧
    (convert_block_embeddings initState "\x7b\x7bembed [[page]]\x7d\x7d".data).2 =
      "#+INCLUDE: \x22page.org\x22".data ∧
    (convert_block_embeddings initState "\x7b\x7bembed ((tok))\x7d\x7d".data).2 =
      ("#+INCLUDE: \x22[[id:" ++ generate_uuid 0 ++ "]]\x22").data := by decide

/-- In the full per-document conversion, `convert_markdown_to_org` rewrites
`![alt](...)` into an org link before `update_asset_paths` runs, so the two
asset spellings do not converge to the canonical `../assets/` form; in
isolation `update_asset_paths` does normalize them. -/
theorem C5_asset_path_order_bug :
    (convert_file_body default_temp_tokens initState "![alt](assets/pic.png)".data).2 =
      "![[assets/pic.png][alt]]".data ∧
    (convert_file_body default_temp_tokens initState "![alt](../assets/pic.png)".data).2 =
      "![[../assets/pic.png][alt]]".data ∧
    update_asset_paths "![alt](assets/pic.png)".data =
      "![alt](../assets/pic.png)".data ∧
    update_asset_paths "![alt](../assets/pic.png)".data =
      "![alt](../assets/pic.png)".data := by decide

/-- Counterexample to claim C1: in the full run over `c1_corpus` the
converter resolves the link `[[*x*]]` (after emphasis rewriting) to the
normalized name `___x___`, registers it as missing with a fresh identifier,
yet no document with that name exists in the output tree. -/
theorem C1_counterexample :
    "___x___" ∈ c1_run.2.missing_pages ∧
    (alookup c1_run.2.page_ids "___x___").isSome = true ∧
    c1_run.1.all (fun f => !(f.2.1 = "___x___")) = true := by decide

/-- Counterexample to claim C3: for `[[a/b]]` the emitted display text is
the raw (stripped) name `a/b`, not the normalized name `a___b` the claim
requires. -/
theorem C3_counterexample :
    (convert_double_links c3_state "[[a/b]]".data).2 =
      ("[[id:" ++ generate_uuid 0 ++ "][a/b]]").data ∧
    ¬ (convert_double_links c3_state "[[a/b]]".data).2 =
      ("[[id:" ++ generate_uuid 0 ++ "][a___b]]").data := by decide

/-- Counterexample to claim C6: when `pages/` and `journals/` both contain
a file with stem `a`, the scanner assigns an identifier to `a` and then
reassigns a different one. -/
theorem C6_counterexample :
    alookup (scanFile initState "a" "").page_ids "a" = some (generate_uuid 0) ∧
    alookup (scan_existing_pages
        { pages := [("a", "")], journals := [("a", "")] } initState).page_ids "a" =
      some (generate_uuid 1) ∧
    ¬ generate_uuid 0 = generate_uuid 1 := by decide

/-! ## General lemmas about the parsers -/

theorem checkboxParse_char {text : Chars} {c : Char} {rest : Chars}
    (h : checkboxParse text = some (c, rest)) : c = ' ' ∨ c = 'x' ∨ c = 'X' := by
  unfold checkboxParse at h
  split at h
  · rename_i c2 r
    split at h
    · rename_i hguard
      split at h
      · rename_i pr hws
        cases h
        have h2 : (c = ' ' ∨ c = 'x') ∨ c = 'X' := by simpa using hguard
        tauto
      · exact absurd h (by simp)
    · exact absurd h (by simp)
  · exact absurd h (by simp)

theorem kwParseGo_mem {ks : List String} {text : Chars} {kw : String} {rest : Chars}
    (h : kwParseGo ks text = some (kw, rest)) : kw ∈ ks := by
  induction ks with
  | nil => simp [kwParseGo] at h
  | cons k t ih =>
    unfold kwParseGo at h
    split at h
    · split at h
      · cases h
        exact List.mem_cons_self _ _
      · exact List.mem_cons_of_mem _ (ih h)
    · exact List.mem_cons_of_mem _ (ih h)

theorem kwParse_mem {text : Chars} {kw : String} {rest : Chars}
    (h : kwParse text = some (kw, rest)) :
    kw = "TODO" ∨ kw = "DONE" ∨ kw = "LATER" ∨ kw = "NOW" ∨ kw = "DOING" ∨
      kw = "WAITING" ∨ kw = "CANCELLED" ∨ kw = "OVERDUE" := by
  have := kwParseGo_mem h
  simpa [task_states] using this

/-- Spec wording of claim C9 for the per-item task-state determination:
the checkbox marker is checked first (`[ ]` to TODO, `[x]`/`[X]` to DONE),
then the known task keyword through the fixed table (NOW and OVERDUE fold
into TODO, all others map to themselves), otherwise a plain heading. -/
def spec_item_heading (level : Nat) (text : Chars) : Chars :=
  match checkboxParse text with
  | some (c, rest) =>
      let state := if c = ' ' then ("TODO" : String) else "DONE"
      List.replicate level '*' ++ ' ' :: state.data ++ ' ' :: rest
  | none =>
    match kwParse text with
    | some (kw, rest) =>
        let state := if kw = "NOW" || kw = "OVERDUE" then ("TODO" : String) else kw
        List.replicate level '*' ++ ' ' :: state.data ++ ' ' :: rest
    | none => List.replicate level '*' ++ ' ' :: text

/-- Claim C9: the task state of a list item is determined by checking, in
order, a checkbox marker (`[ ]` to TODO, `[x]`/`[X]` to DONE), then a known
task keyword mapped through the fixed `task_states` table (NOW and OVERDUE
fold into TODO, all others map to themselves), otherwise the text becomes a
plain heading with no state keyword. -/
theorem C9_task_states (level : Nat) (text : Chars) :
    listItemHeading level text = spec_item_heading level text := by
  unfold listItemHeading spec_item_heading
  cases hcb : checkboxParse text with
  | some pr =>
    obtain ⟨c, rest⟩ := pr
    have hc := checkboxParse_char hcb
    have hstate : (if c.toLower = 'x' then ("DONE" : String) else "TODO") =
        (if c = ' ' then ("TODO" : String) else "DONE") := by
      rcases hc with h | h | h <;> subst h <;> decide
    simp only [hstate]
  | none =>
    cases hkw : kwParse text with
    | some pr =>
      obtain ⟨kw, rest⟩ := pr
      have hk := kwParse_mem hkw
      have hstate : ((alookup task_states kw).getD "TODO") =
          (if kw = "NOW" || kw = "OVERDUE" then ("TODO" : String) else kw) := by
        rcases hk with h | h | h | h | h | h | h | h <;> subst h <;> decide
      simp only [hstate]
    | none => rfl

/-! ## Claim C8: list items become headings of the computed depth -/

theorem takeWhile_all {p : Char → Bool} {l : Chars} (h : ∀ a ∈ l, p a = true) :
    l.takeWhile p = l :=
  List.takeWhile_eq_self_iff.mpr h

theorem splitOnChar_single {x : Char} {l : Chars} (h : x ∉ l) :
    splitOnChar x l = [l] := by
  induction l with
  | nil => rfl
  | cons c r ih =>
    have hcx : ¬ c = x := fun he => h (he ▸ List.mem_cons_self c r)
    have hr : x ∉ r := fun hm => h (List.mem_cons_of_mem _ hm)
    unfold splitOnChar
    rw [if_neg hcx, ih hr]

theorem joinNl_single (l : Chars) : joinNl [l] = l := by
  simp [joinNl, List.intercalate]

/-- Claim C8: a line of the form optional-whitespace, dash, space, text
becomes (after the list-to-outline pass) the heading for that text at depth
`min 6 (indent/2 + 1)` where the normalized indent counts each tab as 2 and
each space as 1. -/
theorem C8_outline_depth (ind text : Chars)
    (hind : ∀ c ∈ ind, pySpace c = true ∧ c ≠ '\n')
    (htext : text ≠ [])
    (hhead : ∀ c ∈ text.take 1, pySpace c = false)
    (hnl : '\n' ∉ text) :
    convert_hierarchical_structure (ind ++ '-' :: ' ' :: text) =
      listItemHeading (min ((ind.count '\t' * 2 + ind.count ' ') / 2 + 1) 6) text := by
  have hnoNl : '\n' ∉ (ind ++ '-' :: ' ' :: text) := by
    intro hm
    rcases List.mem_append.mp hm with hm | hm
    · exact (hind _ hm).2 rfl
    · rcases hm with _ | ⟨_, hm⟩
      · rcases hm with _ | ⟨_, hm⟩
        · exact hnl hm
  unfold convert_hierarchical_structure
  rw [splitOnChar_single hnoNl, List.map_singleton, joinNl_single]
  have htw : (ind ++ '-' :: ' ' :: text).takeWhile pySpace = ind := by
    rw [List.takeWhile_append_of_pos (fun a ha => (hind a ha).1)]
    simp [List.takeWhile_cons, pySpace]
  have hwpt : wsPlusText (' ' :: text) = some (1, text) := by
    unfold wsPlusText
    have htwt : text.takeWhile pySpace = [] := by
      cases text with
      | nil => rfl
      | cons c t =>
        exact List.takeWhile_cons_of_neg (by simp [hhead c (by simp)])
    have hw : (' ' :: text).takeWhile pySpace = [' '] := by
      rw [List.takeWhile_cons_of_pos (by simp [pySpace]), htwt]
    rw [hw]
    simp only [List.length_cons, List.length_nil, List.isEmpty_cons, List.drop_succ_cons,
      List.drop_zero]
    have : text.isEmpty = false := by
      cases text with
      | nil => exact absurd rfl htext
      | cons c t => rfl
    rw [this]
    simp only [Bool.not_false, if_true, Bool.false_eq_true, if_false]
    congr 1
    congr 1
    exact takeWhile_all (fun a ha => by
      simp only [Bool.not_eq_true']
      exact decide_eq_false (fun he => hnl (he ▸ ha)))
  simp only [hierLine, htw, List.drop_left, hwpt]

/-- Witness for claim C8: `- TODO buy milk` at zero indentation becomes a
single-level TODO heading, and the same line indented by four spaces becomes
a third-level heading. -/
theorem C8_outline_depth_witness :
    convert_hierarchical_structure ("    ".data ++ '-' :: ' ' :: "TODO buy milk".data) =
      "*** TODO buy milk".data ∧
    convert_hierarchical_structure ([] ++ '-' :: ' ' :: "TODO buy milk".data) =
      "* TODO buy milk".data := by
  constructor
  · exact (C8_outline_depth "    ".data "TODO buy milk".data (by decide) (by decide)
      (by decide) (by decide)).trans (by decide)
  · exact (C8_outline_depth [] "TODO buy milk".data (by decide) (by decide)
      (by decide) (by decide)).trans (by decide)

/-! ## Claim C2: header identifier selection in `create_org_header` -/

theorem alookup_mem {m : List (String × String)} {k v : String}
    (h : alookup m k = some v) : (k, v) ∈ m := by
  induction m with
  | nil => simp [alookup] at h
  | cons p r ih =>
    unfold alookup at h
    split at h
    · rename_i heq
      cases h
      cases p
      simp_all
    · exact List.mem_cons_of_mem _ (ih h)

/-- Freshness invariant of the identifier supply: every identifier stored
in the page registry was drawn earlier than the current counter (stated via
the strictly increasing length of `generate_uuid`). -/
abbrev counterFresh (st : ConvState) : Prop :=
  ∀ p ∈ st.page_ids, p.2.length < (generate_uuid st.counter).length

/-- Claim C2: the identifier written into the generated header is the one
the registry maps the chosen display title to; when the title is not a key
of the registry a fresh identifier is used, nothing is stored in any
registry, and the fresh identifier differs from every identifier that
double-bracket links resolve to. -/
theorem C2_header_identifier (st : ConvState) (title : String)
    (props : List (String × PVal)) (hfresh : counterFresh st) :
    (∀ pid, alookup st.page_ids title = some pid →
       ∃ rest, (create_org_header st title props).1.data =
         ":PROPERTIES:\n:ID: ".data ++ pid.data ++ '\n' :: rest) ∧
    (alookup st.page_ids title = none →
       (∃ rest, (create_org_header st title props).1.data =
          ":PROPERTIES:\n:ID: ".data ++ (generate_uuid st.counter).data ++ '\n' :: rest) ∧
       (create_org_header st title props).2.page_ids = st.page_ids ∧
       (create_org_header st title props).2.block_ids = st.block_ids ∧
       (create_org_header st title props).2.missing_pages = st.missing_pages ∧
       ∀ n pid, alookup st.page_ids n = some pid → pid ≠ generate_uuid st.counter) := by
  constructor
  · intro pid hpid
    exact ⟨_, by
      unfold create_org_header
      simp only [freshId, hpid, Option.getD_some, String.data_append,
        List.append_assoc, List.singleton_append]
      rfl⟩
  · intro hnone
    refine ⟨?ex, rfl, rfl, rfl, ?ne⟩
    case ex =>
      exact ⟨_, by
        unfold create_org_header
        simp only [freshId, hnone, Option.getD_none, String.data_append,
          List.append_assoc, List.singleton_append]
        rfl⟩
    case ne =>
      intro n pid hpid heq
      have hlt := hfresh _ (alookup_mem hpid)
      rw [heq] at hlt
      exact lt_irrefl _ hlt

/-- Witness for claim C2 at a concrete state whose registry holds one page
and whose display title is absent from the registry. -/
theorem C2_header_identifier_witness :
    (∃ rest, (create_org_header
        { initState with page_ids := [("note", generate_uuid 0)], counter := 1 }
        "My Title" [("title", PVal.str "My Title")]).1.data =
      ":PROPERTIES:\n:ID: ".data ++ (generate_uuid 1).data ++ '\n' :: rest) ∧
    (create_org_header
        { initState with page_ids := [("note", generate_uuid 0)], counter := 1 }
        "My Title" [("title", PVal.str "My Title")]).2.page_ids =
      [("note", generate_uuid 0)] := by
  have h := (C2_header_identifier
      { initState with page_ids := [("note", generate_uuid 0)], counter := 1 }
      "My Title" [("title", PVal.str "My Title")] (by decide)).2 (by decide)
  exact ⟨h.1, h.2.1⟩

/-! ## Claim C3: single-link conversion lemmas -/

/-- A character list without adjacent open brackets: no position can start
a `\[\[` match. -/
def noDD : Chars → Bool
  | [] => true
  | c :: r => !(c = '[' && decide (r.head? = some '[')) && noDD r

theorem isPref_empty (cs : Chars) : isPref [] cs = true := by
  cases cs <;> rfl

theorem isPref_two {a b : Char} {cs : Chars} :
    isPref [a, b] cs = true ↔ ∃ r, cs = a :: b :: r := by
  constructor
  · intro h
    match cs with
    | [] => simp [isPref] at h
    | [c] => simp [isPref] at h
    | c :: d :: r =>
      simp only [isPref, Bool.and_eq_true, decide_eq_true_eq] at h
      exact ⟨r, by rw [h.1, h.2.1]⟩
  · rintro ⟨r, rfl⟩
    simp [isPref, isPref_empty]

theorem doubleLinkCore_none_of_noDD {cs : Chars} (h : noDD cs = true) :
    doubleLinkCore cs = none := by
  unfold doubleLinkCore
  match cs, h with
  | [], _ => rfl
  | [c], _ => simp [isPref]
  | c :: d :: r, h =>
    simp only [noDD, Bool.and_eq_true, Bool.not_eq_true', Bool.and_eq_false_iff,
      decide_eq_true_eq, decide_eq_false_iff_not] at h
    have : isPref "[[".data (c :: d :: r) = false := by
      simp only [show ("[[".data : Chars) = ['[', '['] from rfl, isPref,
        isPref_empty, Bool.and_true]
      rcases h.1 with h1 | h1
      · simp [show ¬ '[' = c from fun he => h1 he.symm]
      · have : ¬ d = '[' := by simpa using h1
        simp [show ¬ '[' = d from fun he => this he.symm]
    rw [this]
    simp

theorem noDD_cons_eq (c : Char) (r : Chars) :
    noDD (c :: r) = ((!(c = '[' && decide (r.head? = some '['))) && noDD r) := rfl

theorem noDD_cons_tail {c : Char} {r : Chars} (h : noDD (c :: r) = true) :
    noDD r = true := by
  rw [noDD_cons_eq, Bool.and_eq_true] at h
  exact h.2

theorem noDD_cons_intro {c : Char} {r : Chars}
    (h1 : c = '[' → ¬ r.head? = some '[') (h2 : noDD r = true) :
    noDD (c :: r) = true := by
  rw [noDD_cons_eq, Bool.and_eq_true]
  refine ⟨?_, h2⟩
  simp only [Bool.not_eq_true', Bool.and_eq_false_iff, decide_eq_false_iff_not]
  by_cases hc : c = '['
  · exact Or.inr (h1 hc)
  · exact Or.inl hc

theorem noDD_append_no_open {xs ys : Chars} (hx : ∀ c ∈ xs, ¬ c = '[')
    (hy : noDD ys = true) : noDD (xs ++ ys) = true := by
  induction xs with
  | nil => simpa using hy
  | cons c t ih =>
    have hc : ¬ c = '[' := hx c (List.mem_cons_self c t)
    simp only [List.cons_append, noDD, Bool.and_eq_true, Bool.not_eq_true',
      Bool.and_eq_false_iff, decide_eq_false_iff_not]
    exact ⟨Or.inl hc, ih (fun a ha => hx a (List.mem_cons_of_mem _ ha))⟩

theorem applySubStF_succ_cons (m : SubStM) (f : Nat) (st : ConvState)
    (prev : Option Char) (c : Char) (rest : Chars) :
    applySubStF m (f + 1) st prev (c :: rest) =
      match m st prev (c :: rest) with
      | some (repl, k, st2) =>
          let res := applySubStF m f st2 (((c :: rest).take (k + 1)).getLast?) (rest.drop k)
          (res.1, repl ++ res.2)
      | none =>
          let res := applySubStF m f st (some c) rest
          (res.1, c :: res.2) := rfl

theorem applySubStF_step_none (m : SubStM) (f : Nat) (st : ConvState)
    (prev : Option Char) (c : Char) (rest : Chars)
    (hm : m st prev (c :: rest) = none) :
    applySubStF m (f + 1) st prev (c :: rest) =
      ((applySubStF m f st (some c) rest).1,
       c :: (applySubStF m f st (some c) rest).2) := by
  rw [applySubStF_succ_cons, hm]

theorem applySubStF_full (m : SubStM) (f : Nat) (st : ConvState)
    (prev : Option Char) (c : Char) (rest : Chars) (repl : Chars) (st2 : ConvState)
    (hm : m st prev (c :: rest) = some (repl, rest.length, st2)) :
    applySubStF m (f + 1) st prev (c :: rest) = (st2, repl) := by
  rw [applySubStF_succ_cons, hm]
  simp only [List.drop_length]
  cases f <;> simp [applySubStF]

theorem applySubStF_dlink2_id : ∀ (f : Nat) (st : ConvState) (prev : Option Char)
    (cs : Chars), cs.length ≤ f → noDD cs = true →
    applySubStF dlinkM2 f st prev cs = (st, cs) := by
  intro f
  induction f with
  | zero =>
    intro st prev cs hlen _
    have : cs = [] := by
      cases cs with
      | nil => rfl
      | cons c r => simp at hlen
    subst this
    rfl
  | succ f ih =>
    intro st prev cs hlen hdd
    cases cs with
    | nil => rfl
    | cons c rest =>
      have hm : dlinkM2 st prev (c :: rest) = none := by
        unfold dlinkM2
        rw [doubleLinkCore_none_of_noDD hdd]
      rw [applySubStF_step_none dlinkM2 f st prev c rest hm]
      rw [ih st (some c) rest (by simpa using Nat.lt_succ_iff.mp (Nat.lt_of_lt_of_le (Nat.lt_succ_of_le (le_refl _)) hlen)) (noDD_cons_tail hdd)]

theorem doubleLinkCore_wrapped (body : Chars) (hne : body ≠ [])
    (hnb : ∀ c ∈ body, ¬ c = ']') :
    doubleLinkCore ("[[".data ++ body ++ "]]".data) = some (body, body.length + 3) := by
  have h1 : isPref "[[".data ("[[".data ++ body ++ "]]".data) = true := by
    simp [isPref, isPref_empty]
  have hdrop2 : ("[[".data ++ body ++ "]]".data).drop 2 = body ++ "]]".data := by
    simp
  have hcap : (body ++ "]]".data).takeWhile (fun c => !(c = ']')) = body := by
    rw [List.takeWhile_append_of_pos (by
      intro a ha
      simpa using hnb a ha)]
    simp
  have hbe : body.isEmpty = false := by
    cases body with
    | nil => exact absurd rfl hne
    | cons c t => rfl
  have hdropb : (body ++ "]]".data).drop body.length = "]]".data := List.drop_left _ _
  unfold doubleLinkCore
  simp only [h1, hdrop2, hcap, hbe, hdropb, if_true, Bool.false_eq_true, if_false]
  have hp : isPref "]]".data "]]".data = true := by decide
  simp only [hp, if_true]
  have harith : 2 + body.length + 2 - 1 = body.length + 3 := by omega
  rw [harith]

theorem generate_uuid_chars (n : Nat) :
    ∀ c ∈ (generate_uuid n).data, ¬ c = ']' ∧ ¬ c = '[' := by
  intro c hc
  simp only [generate_uuid, List.mem_cons, List.mem_replicate] at hc
  rcases hc with rfl | rfl | rfl | rfl | rfl | ⟨-, rfl⟩ <;> decide

theorem mem_pyStrip_sub {l : Chars} {c : Char} (h : c ∈ pyStrip l) : c ∈ l :=
  mem_pyStrip h

/-- Shape of a `replace_link` result: a typed link whose identifier and
display text are bracket-free whenever the captured text and all registry
values are. -/
theorem replace_link_chars (st : ConvState) (body : Chars)
    (hb : ∀ c ∈ body, ¬ c = ']' ∧ ¬ c = '[')
    (hids : ∀ p ∈ st.page_ids, ∀ c ∈ p.2.data, ¬ c = ']' ∧ ¬ c = '[') :
    ∃ (pid : String) (disp : Chars) (st2 : ConvState),
      replace_link st body =
        ("[[id:".data ++ pid.data ++ "][".data ++ disp ++ "]]".data, st2) ∧
      (∀ c ∈ pid.data, ¬ c = ']' ∧ ¬ c = '[') ∧
      (∀ c ∈ disp, ¬ c = ']' ∧ ¬ c = '[') := by
  unfold replace_link
  by_cases hcont : '|' ∈ body
  all_goals simp only [hcont, if_false, if_true]
  · -- alias present
    have hdisp : ∀ c ∈ pyStrip (body.drop ((body.takeWhile (fun c => !(c = '|'))).length + 1)),
        ¬ c = ']' ∧ ¬ c = '[' :=
      fun c hc => hb c (List.drop_subset _ _ (mem_pyStrip_sub hc))
    cases hlook : alookup st.page_ids
        ⟨normChars (pyStrip (body.takeWhile (fun c => !(c = '|'))))⟩ with
    | some pid =>
      exact ⟨pid, _, st, rfl, (fun c hc => hids _ (alookup_mem hlook) c hc), hdisp⟩
    | none =>
      exact ⟨generate_uuid st.counter, _, _, rfl,
        (fun c hc => generate_uuid_chars st.counter c hc), hdisp⟩
  · -- no alias
    have hdisp : ∀ c ∈ pyStrip body, ¬ c = ']' ∧ ¬ c = '[' :=
      fun c hc => hb c (mem_pyStrip_sub hc)
    cases hlook : alookup st.page_ids ⟨normChars (pyStrip body)⟩ with
    | some pid =>
      exact ⟨pid, pyStrip body, st, rfl,
        (fun c hc => hids _ (alookup_mem hlook) c hc), hdisp⟩
    | none =>
      exact ⟨generate_uuid st.counter, pyStrip body, _, rfl,
        (fun c hc => generate_uuid_chars st.counter c hc), hdisp⟩

/-- The second double-link pattern leaves an already-converted typed link
unchanged (no double conversion). -/
theorem applySubSt_dlink2_converted (st : ConvState) (pid disp : Chars)
    (hpid : ∀ c ∈ pid, ¬ c = ']' ∧ ¬ c = '[')
    (hdisp : ∀ c ∈ disp, ¬ c = ']' ∧ ¬ c = '[') :
    applySubSt dlinkM2 st ("[[id:".data ++ pid ++ "][".data ++ disp ++ "]]".data) =
      (st, "[[id:".data ++ pid ++ "][".data ++ disp ++ "]]".data) := by
  have htail : noDD ('[' :: 'i' :: 'd' :: ':' ::
      (pid ++ (']' :: '[' :: (disp ++ "]]".data)))) = true := by
    have h1 : noDD (disp ++ "]]".data) = true :=
      noDD_append_no_open (fun c hc => (hdisp c hc).2) (by decide)
    have h2 : noDD ('[' :: (disp ++ "]]".data)) = true := by
      refine noDD_cons_intro (fun _ => ?_) h1
      cases disp with
      | nil => simp
      | cons d t =>
        simp only [List.cons_append, List.head?_cons]
        intro he
        exact (hdisp d (List.mem_cons_self d t)).2 (by injection he)
    have h3 : noDD (']' :: '[' :: (disp ++ "]]".data)) = true := by
      refine noDD_cons_intro (fun hc => ?_) h2
      exact absurd hc (by decide)
    have h4 : noDD (('i' :: 'd' :: ':' :: pid) ++ (']' :: '[' :: (disp ++ "]]".data))) = true := by
      apply noDD_append_no_open
      · intro c hc
        rcases List.mem_cons.mp hc with h | hc
        · subst h; decide
        rcases List.mem_cons.mp hc with h | hc
        · subst h; decide
        rcases List.mem_cons.mp hc with h | hc
        · subst h; decide
        · exact (hpid c hc).2
      · exact h3
    refine noDD_cons_intro (fun _ => ?_) h4
    simp
  have hcore : doubleLinkCore ("[[id:".data ++ pid ++ "][".data ++ disp ++ "]]".data) = none := by
    unfold doubleLinkCore
    have hp1 : isPref "[[".data ("[[id:".data ++ pid ++ "][".data ++ disp ++ "]]".data) = true := by
      simp [isPref, isPref_empty]
    have hdrop2 : ("[[id:".data ++ pid ++ "][".data ++ disp ++ "]]".data).drop 2 =
        ('i' :: 'd' :: ':' :: pid) ++ (']' :: '[' :: (disp ++ "]]".data)) := by
      simp
    have hcap : ((('i' :: 'd' :: ':' :: pid) ++ (']' :: '[' :: (disp ++ "]]".data))).takeWhile
        (fun c => !(c = ']'))) = 'i' :: 'd' :: ':' :: pid := by
      rw [List.takeWhile_append_of_pos (by
        intro a ha
        rcases List.mem_cons.mp ha with h | ha
        · subst h; decide
        rcases List.mem_cons.mp ha with h | ha
        · subst h; decide
        rcases List.mem_cons.mp ha with h | ha
        · subst h; decide
        · simpa using (hpid a ha).1)]
      simp [List.takeWhile_cons]
    rw [hp1, hdrop2, hcap]
    have hdropb : ((('i' :: 'd' :: ':' :: pid) ++ (']' :: '[' :: (disp ++ "]]".data))).drop
        ('i' :: 'd' :: ':' :: pid).length) = ']' :: '[' :: (disp ++ "]]".data) :=
      List.drop_left _ _
    simp only [hdropb]
    simp [isPref]
  have hm : dlinkM2 st none ("[[id:".data ++ pid ++ "][".data ++ disp ++ "]]".data) = none := by
    unfold dlinkM2
    rw [hcore]
  show applySubStF dlinkM2
      ("[[id:".data ++ pid ++ "][".data ++ disp ++ "]]".data).length st none _ = _
  have hshape : ("[[id:".data ++ pid ++ "][".data ++ disp ++ "]]".data) =
      '[' :: ('[' :: 'i' :: 'd' :: ':' :: (pid ++ (']' :: '[' :: (disp ++ "]]".data)))) := by
    simp
  rw [hshape] at hm ⊢
  rw [List.length_cons]
  rw [applySubStF_step_none _ _ _ _ _ _ hm]
  rw [applySubStF_dlink2_id _ st (some '[') _ (le_refl _) htail]

/-- Conversion of a content consisting of a single double-bracket link:
both patterns of `convert_double_links` together perform exactly one
replacement. -/
theorem convert_double_links_single (st : ConvState) (body : Chars)
    (hne : body ≠ [])
    (hb : ∀ c ∈ body, ¬ c = ']' ∧ ¬ c = '[')
    (hids : ∀ p ∈ st.page_ids, ∀ c ∈ p.2.data, ¬ c = ']' ∧ ¬ c = '[') :
    convert_double_links st ("[[".data ++ body ++ "]]".data) =
      ((replace_link st body).2, (replace_link st body).1) := by
  obtain ⟨pid, disp, st2, hrl, hpid, hdisp⟩ := replace_link_chars st body hb hids
  have hcore := doubleLinkCore_wrapped body hne (fun c hc => (hb c hc).1)
  have hlen : ('[' :: (body ++ "]]".data)).length = body.length + 3 := by simp
  have hm1 : dlinkM1 st none ('[' :: ('[' :: (body ++ "]]".data))) =
      some ((replace_link st body).1, ('[' :: (body ++ "]]".data)).length,
        (replace_link st body).2) := by
    show dlinkM1 st none ("[[".data ++ body ++ "]]".data) = _
    unfold dlinkM1
    rw [hcore, hlen]
  have hp1 : applySubSt dlinkM1 st ("[[".data ++ body ++ "]]".data) =
      ((replace_link st body).2, (replace_link st body).1) := by
    show applySubStF dlinkM1 ("[[".data ++ body ++ "]]".data).length st none
      ("[[".data ++ body ++ "]]".data) = _
    have hcs : ("[[".data ++ body ++ "]]".data) = '[' :: ('[' :: (body ++ "]]".data)) := by
      simp
    rw [hcs, List.length_cons]
    exact applySubStF_full dlinkM1 _ st none '[' _ _ _ hm1
  unfold convert_double_links
  simp only [hp1]
  rw [hrl]
  exact applySubSt_dlink2_converted st2 pid.data disp hpid hdisp

theorem replace_link_no_pipe (st : ConvState) (name : Chars)
    (hnp : ¬ '|' ∈ name) :
    replace_link st name =
      (match alookup st.page_ids ⟨normChars (pyStrip name)⟩ with
       | some pid =>
          ("[[id:".data ++ pid.data ++ "][".data ++ pyStrip name ++ "]]".data, st)
       | none =>
          ("[[id:".data ++ (generate_uuid st.counter).data ++ "][".data ++
             pyStrip name ++ "]]".data,
           { st with counter := st.counter + 1,
                     page_ids := (⟨normChars (pyStrip name)⟩, generate_uuid st.counter)
                        :: st.page_ids,
                     missing_pages := addSet ⟨normChars (pyStrip name)⟩ st.missing_pages })) := by
  unfold replace_link
  simp only [if_neg hnp]

theorem replace_link_with_pipe (st : ConvState) (name aliasT : Chars)
    (hnp : ∀ c ∈ name, ¬ c = '|') :
    replace_link st (name ++ '|' :: aliasT) =
      (match alookup st.page_ids ⟨normChars (pyStrip name)⟩ with
       | some pid =>
          ("[[id:".data ++ pid.data ++ "][".data ++ pyStrip aliasT ++ "]]".data, st)
       | none =>
          ("[[id:".data ++ (generate_uuid st.counter).data ++ "][".data ++
             pyStrip aliasT ++ "]]".data,
           { st with counter := st.counter + 1,
                     page_ids := (⟨normChars (pyStrip name)⟩, generate_uuid st.counter)
                        :: st.page_ids,
                     missing_pages := addSet ⟨normChars (pyStrip name)⟩ st.missing_pages })) := by
  have hmem : '|' ∈ name ++ '|' :: aliasT :=
    List.mem_append.mpr (Or.inr (List.mem_cons_self _ _))
  have hpage : (name ++ '|' :: aliasT).takeWhile (fun c => !(c = '|')) = name := by
    rw [List.takeWhile_append_of_pos (by
      intro a ha
      simpa using hnp a ha)]
    simp [List.takeWhile_cons]
  have hdrop : (name ++ '|' :: aliasT).drop (name.length + 1) = aliasT := by
    rw [show name ++ '|' :: aliasT = (name ++ ['|']) ++ aliasT by simp]
    exact List.drop_left' (by simp)
  unfold replace_link
  simp only [if_pos hmem, hpage, hdrop]

/-- Claim C3 (amended): for a single double-bracket link the converter
normalizes the name, resolves or lazily creates (marking as pending) its
identifier via the registry, converts the link exactly once into
`[[id:<identifier>][<display>]]`, and the display text is the alias when
present and otherwise the raw (whitespace-stripped, not normalized)
name. -/
theorem C3_amended_display_and_resolution (st : ConvState) (name aliasT : Chars)
    (hne : name ≠ [])
    (hname : ∀ c ∈ name, ¬ c = ']' ∧ ¬ c = '[' ∧ ¬ c = '|')
    (halias : ∀ c ∈ aliasT, ¬ c = ']' ∧ ¬ c = '[')
    (hids : ∀ p ∈ st.page_ids, ∀ c ∈ p.2.data, ¬ c = ']' ∧ ¬ c = '[') :
    ∃ (pid : String) (st2 st3 : ConvState),
      convert_double_links st ("[[".data ++ name ++ "]]".data) =
        (st2, "[[id:".data ++ pid.data ++ "][".data ++ pyStrip name ++ "]]".data) ∧
      convert_double_links st ("[[".data ++ (name ++ '|' :: aliasT) ++ "]]".data) =
        (st3, "[[id:".data ++ pid.data ++ "][".data ++ pyStrip aliasT ++ "]]".data) ∧
      ((alookup st.page_ids ⟨normChars (pyStrip name)⟩ = some pid ∧ st2 = st ∧ st3 = st) ∨
       (alookup st.page_ids ⟨normChars (pyStrip name)⟩ = none ∧
        pid = generate_uuid st.counter ∧
        st2.page_ids = (⟨normChars (pyStrip name)⟩, pid) :: st.page_ids ∧
        st3.page_ids = (⟨normChars (pyStrip name)⟩, pid) :: st.page_ids ∧
        (⟨normChars (pyStrip name)⟩ : String) ∈ st2.missing_pages ∧
        (⟨normChars (pyStrip name)⟩ : String) ∈ st3.missing_pages)) := by
  have hb1 : ∀ c ∈ name, ¬ c = ']' ∧ ¬ c = '[' :=
    fun c hc => ⟨(hname c hc).1, (hname c hc).2.1⟩
  have hb2 : ∀ c ∈ name ++ '|' :: aliasT, ¬ c = ']' ∧ ¬ c = '[' := by
    intro c hc
    rcases List.mem_append.mp hc with hc | hc
    · exact hb1 c hc
    · rcases List.mem_cons.mp hc with rfl | hc
      · exact ⟨by decide, by decide⟩
      · exact halias c hc
  have hne2 : name ++ '|' :: aliasT ≠ [] := by
    cases name <;> simp
  have h1 := convert_double_links_single st name hne hb1 hids
  have h2 := convert_double_links_single st (name ++ '|' :: aliasT) hne2 hb2 hids
  have hnp : ¬ '|' ∈ name := fun hm => (hname '|' hm).2.2 rfl
  rw [replace_link_no_pipe st name hnp] at h1
  rw [replace_link_with_pipe st name aliasT (fun c hc => (hname c hc).2.2)] at h2
  cases hlook : alookup st.page_ids ⟨normChars (pyStrip name)⟩ with
  | some pid =>
    rw [hlook] at h1 h2
    exact ⟨pid, st, st, h1, h2, Or.inl ⟨rfl, rfl, rfl⟩⟩
  | none =>
    rw [hlook] at h1 h2
    refine ⟨generate_uuid st.counter, _, _, h1, h2, Or.inr ⟨rfl, rfl, rfl, rfl, ?_, ?_⟩⟩
    · show (⟨normChars (pyStrip name)⟩ : String) ∈
        addSet ⟨normChars (pyStrip name)⟩ st.missing_pages
      unfold addSet
      split
      · assumption
      · exact List.mem_append.mpr (Or.inr (List.mem_cons_self _ _))
    · show (⟨normChars (pyStrip name)⟩ : String) ∈
        addSet ⟨normChars (pyStrip name)⟩ st.missing_pages
      unfold addSet
      split
      · assumption
      · exact List.mem_append.mpr (Or.inr (List.mem_cons_self _ _))

/-- Witness for the amended claim C3: `[[a/b]]` (name not equal to its
normalization) together with `[[a/b|My Alias]]` at the concrete state
`c3_state`. -/
theorem C3_amended_witness :
    convert_double_links c3_state "[[a/b]]".data =
      (c3_state, ("[[id:" ++ generate_uuid 0 ++ "][a/b]]").data) ∧
    convert_double_links c3_state "[[a/b|My Alias]]".data =
      (c3_state, ("[[id:" ++ generate_uuid 0 ++ "][My Alias]]").data) := by
  obtain ⟨pid, st2, st3, h1, h2, hres⟩ :=
    C3_amended_display_and_resolution c3_state "a/b".data "My Alias".data
      (by decide) (by decide) (by decide) (by decide)
  rcases hres with ⟨hl, hst2, hst3⟩ | ⟨hl, -⟩
  · have hp : pid = generate_uuid 0 := by
      have hval : alookup c3_state.page_ids ⟨normChars (pyStrip "a/b".data)⟩ =
          some (generate_uuid 0) := by decide
      have := hval.symm.trans hl
      exact (Option.some.inj this).symm
    subst hp
    subst hst2
    subst hst3
    constructor
    · exact (by decide : ("[[a/b]]".data : Chars) =
        "[[".data ++ "a/b".data ++ "]]".data) ▸ h1.trans (by decide)
    · exact (by decide : ("[[a/b|My Alias]]".data : Chars) =
        "[[".data ++ ("a/b".data ++ '|' :: "My Alias".data) ++ "]]".data) ▸ h2.trans (by decide)
  · exact absurd hl (by decide)

/-! ## Claim C1 (amended): names pending after the collector pass get stubs -/

theorem createMissing_files_mono (now : String) :
    ∀ (l : List String) (acc : List OutFile × ConvState) (x : OutFile),
      x ∈ acc.1 → x ∈ (l.foldl (createMissingStep now) acc).1 := by
  intro l
  induction l with
  | nil => intro acc x hx; exact hx
  | cons a t ih =>
    intro acc x hx
    rw [List.foldl_cons]
    refine ih _ x ?_
    show x ∈ (createMissingStep now acc a).1
    unfold createMissingStep
    exact List.mem_append.mpr (Or.inl hx)

theorem createMissing_mem (now : String) :
    ∀ (l : List String) (acc : List OutFile × ConvState) (n : String), n ∈ l →
      ∃ cnt, ("pages", n, cnt) ∈ (l.foldl (createMissingStep now) acc).1 := by
  intro l
  induction l with
  | nil => intro acc n hn; simp at hn
  | cons a t ih =>
    intro acc n hn
    rcases List.mem_cons.mp hn with rfl | hn
    · refine ⟨stub_content (generate_uuid acc.2.counter) n now, ?_⟩
      rw [List.foldl_cons]
      refine createMissing_files_mono now t _ _ ?_
      show ("pages", n, stub_content (generate_uuid acc.2.counter) n now) ∈
        (createMissingStep now acc n).1
      unfold createMissingStep freshId
      exact List.mem_append.mpr (Or.inr (List.mem_cons_self _ _))
    · rw [List.foldl_cons]
      exact ih _ n hn

/-- Claim C1 (amended): every name in the pending set at the moment stub
materialization runs (that is, every name discovered by the scan and
collect passes) gets a document in the output tree of the full run; names
first encountered only during the final per-document conversion pass
receive an identifier and a pending mark, but no document (see the
counterexample). -/
theorem C1_amended_collected_names_materialized (tok : TempTokens) (now : String)
    (c : Corpus) (n : String)
    (hn : n ∈ (collect_missing_pages c (scan_existing_pages c initState)).missing_pages) :
    ∃ content, ("pages", n, content) ∈ (convert_all tok now c).1 := by
  obtain ⟨cnt, hmem⟩ := createMissing_mem now _
    (([] : List OutFile), collect_missing_pages c (scan_existing_pages c initState)) n hn
  exact ⟨cnt, List.mem_append.mpr (Or.inl hmem)⟩

/-- Witness for the amended claim C1: in the run over `c1_corpus` the
collected name `x` has a stub document in the output tree. -/
theorem C1_amended_witness :
    ∃ content, ("pages", "x", content) ∈ c1_run.1 :=
  C1_amended_collected_names_materialized default_temp_tokens "2026-10-12 10:00:00"
    c1_corpus "x" (by decide)

/-! ## Claim C6 (amended): binding persistence through the run -/

/-- Binding persistence between two registry association lists. -/
def keeps (m m2 : List (String × String)) : Prop :=
  ∀ k v, alookup m k = some v → alookup m2 k = some v

/-- Binding persistence on both registries of two states. -/
def stKeeps (s s2 : ConvState) : Prop :=
  keeps s.page_ids s2.page_ids ∧ keeps s.block_ids s2.block_ids

theorem keeps_refl (m : List (String × String)) : keeps m m := fun _ _ h => h

theorem keeps_trans {a b c : List (String × String)} (h1 : keeps a b) (h2 : keeps b c) :
    keeps a c := fun k v h => h2 k v (h1 k v h)

theorem stKeeps_refl (s : ConvState) : stKeeps s s := ⟨keeps_refl _, keeps_refl _⟩

theorem stKeeps_trans {a b c : ConvState} (h1 : stKeeps a b) (h2 : stKeeps b c) :
    stKeeps a c := ⟨keeps_trans h1.1 h2.1, keeps_trans h1.2 h2.2⟩

/-- Keys of a registry. -/
def keysOf (m : List (String × String)) : List String := m.map Prod.fst

theorem alookup_some_mem_keys {m : List (String × String)} {k v : String}
    (h : alookup m k = some v) : k ∈ keysOf m :=
  List.mem_map.mpr ⟨(k, v), alookup_mem h, rfl⟩

theorem keeps_cons_of_none {m : List (String × String)} {a i : String}
    (h : alookup m a = none) : keeps m ((a, i) :: m) := by
  intro k v hk
  unfold alookup
  split
  · rename_i heq
    rw [heq] at h
    rw [h] at hk
    exact absurd hk (by simp)
  · exact hk

theorem keeps_cons_of_not_mem {m : List (String × String)} {a i : String}
    (h : ¬ a ∈ keysOf m) : keeps m ((a, i) :: m) := by
  apply keeps_cons_of_none
  cases hl : alookup m a with
  | none => rfl
  | some v => exact absurd (alookup_some_mem_keys hl) h

theorem mem_addSet_self (x : String) (s : List String) : x ∈ addSet x s := by
  unfold addSet
  split
  · assumption
  · exact List.mem_append.mpr (Or.inr (List.mem_cons_self _ _))

theorem addSet_mono {y : String} {s : List String} (h : y ∈ s) (x : String) :
    y ∈ addSet x s := by
  unfold addSet
  split
  · exact h
  · exact List.mem_append.mpr (Or.inl h)

theorem mem_of_mem_addSet {y x : String} {s : List String} (h : y ∈ addSet x s) :
    y = x ∨ y ∈ s := by
  unfold addSet at h
  split at h
  · exact Or.inr h
  · rcases List.mem_append.mp h with h | h
    · exact Or.inr h
    · rcases List.mem_cons.mp h with h | h
      · exact Or.inl h
      · simp at h

theorem addSet_nodup {s : List String} (h : s.Nodup) (x : String) :
    (addSet x s).Nodup := by
  unfold addSet
  split
  · exact h
  · rename_i hx
    simp [List.nodup_append, h, hx]

/-- Per-match state effects of the three stateful matchers only extend the
registries (get-or-create), so bindings persist. -/
theorem replace_link_keeps (st : ConvState) (body : Chars) :
    stKeeps st (replace_link st body).2 := by
  unfold replace_link
  split
  · dsimp only
    split
    · exact stKeeps_refl st
    · rename_i hlook
      exact ⟨keeps_cons_of_none hlook, keeps_refl _⟩
  · dsimp only
    split
    · exact stKeeps_refl st
    · rename_i hlook
      exact ⟨keeps_cons_of_none hlook, keeps_refl _⟩

theorem getOrCreateBlockId_keeps (st : ConvState) (tok : String) :
    stKeeps st (getOrCreateBlockId st tok).2 := by
  unfold getOrCreateBlockId
  split
  · exact stKeeps_refl st
  · rename_i hlook
    exact ⟨keeps_refl _, keeps_cons_of_none hlook⟩

theorem replace_embed_keeps (st : ConvState) (e w : Chars) :
    stKeeps st (replace_embed st e w).2 := by
  unfold replace_embed
  split
  · exact stKeeps_refl st
  · split
    · exact getOrCreateBlockId_keeps st _
    · exact stKeeps_refl st

/-- A stateful matcher whose successful matches only extend the registries. -/
def matcherKeeps (m : SubStM) : Prop :=
  ∀ st prev cs r k st2, m st prev cs = some (r, k, st2) → stKeeps st st2

theorem dlinkM1_keeps : matcherKeeps dlinkM1 := by
  intro st prev cs r k st2 h
  unfold dlinkM1 at h
  split at h
  · rename_i cap kk heq
    cases h
    exact replace_link_keeps st cap
  · exact absurd h (by simp)

theorem dlinkM2_keeps : matcherKeeps dlinkM2 := by
  intro st prev cs r k st2 h
  unfold dlinkM2 at h
  split at h
  · rename_i cap kk heq
    split at h
    · exact absurd h (by simp)
    · cases h
      exact replace_link_keeps st cap
  · exact absurd h (by simp)

theorem blockRefM_keeps : matcherKeeps blockRefM := by
  intro st prev cs r k st2 h
  unfold blockRefM at h
  split at h
  · rename_i cap kk heq
    cases h
    exact getOrCreateBlockId_keeps st _
  · exact absurd h (by simp)

theorem embedM_keeps : matcherKeeps embedM := by
  intro st prev cs r k st2 h
  unfold embedM at h
  split at h
  · dsimp only at h
    split at h
    · exact absurd h (by simp)
    · split at h
      · split at h
        · cases h
          exact replace_embed_keeps st _ _
        · exact absurd h (by simp)
      · split at h
        · cases h
          exact replace_embed_keeps st _ _
        · exact absurd h (by simp)
  · exact absurd h (by simp)

theorem applySubStF_keeps (m : SubStM) (hm : matcherKeeps m) :
    ∀ (f : Nat) (st : ConvState) (prev : Option Char) (cs : Chars),
      stKeeps st (applySubStF m f st prev cs).1 := by
  intro f
  induction f with
  | zero => intro st prev cs; exact stKeeps_refl st
  | succ f ih =>
    intro st prev cs
    cases cs with
    | nil => exact stKeeps_refl st
    | cons c rest =>
      rw [applySubStF_succ_cons]
      cases hmm : m st prev (c :: rest) with
      | some r =>
        obtain ⟨repl, k, st2⟩ := r
        exact stKeeps_trans (hm st prev (c :: rest) repl k st2 hmm) (ih st2 _ _)
      | none => exact ih st (some c) rest

theorem convert_double_links_keeps (st : ConvState) (cs : Chars) :
    stKeeps st (convert_double_links st cs).1 := by
  unfold convert_double_links applySubSt
  exact stKeeps_trans (applySubStF_keeps dlinkM1 dlinkM1_keeps _ st none cs)
    (applySubStF_keeps dlinkM2 dlinkM2_keeps _ _ none _)

theorem convert_block_references_keeps (st : ConvState) (cs : Chars) :
    stKeeps st (convert_block_references st cs).1 :=
  applySubStF_keeps blockRefM blockRefM_keeps _ st none cs

theorem convert_block_embeddings_keeps (st : ConvState) (cs : Chars) :
    stKeeps st (convert_block_embeddings st cs).1 :=
  applySubStF_keeps embedM embedM_keeps _ st none cs

theorem create_org_header_keeps (st : ConvState) (t : String)
    (p : List (String × PVal)) : stKeeps st (create_org_header st t p).2 :=
  ⟨keeps_refl _, keeps_refl _⟩

theorem convert_file_body_keeps (tok : TempTokens) (st : ConvState) (cs : Chars) :
    stKeeps st (convert_file_body tok st cs).1 := by
  simp only [convert_file_body]
  exact stKeeps_trans
    (convert_double_links_keeps st
      (convert_hierarchical_structure (convert_tasks (convert_markdown_to_org tok cs))))
    (stKeeps_trans
      (convert_block_references_keeps
        (convert_double_links st
          (convert_hierarchical_structure (convert_tasks (convert_markdown_to_org tok cs)))).1
        (convert_double_links st
          (convert_hierarchical_structure (convert_tasks (convert_markdown_to_org tok cs)))).2)
      (convert_block_embeddings_keeps
        (convert_block_references
          (convert_double_links st
            (convert_hierarchical_structure (convert_tasks (convert_markdown_to_org tok cs)))).1
          (convert_double_links st
            (convert_hierarchical_structure (convert_tasks (convert_markdown_to_org tok cs)))).2).1
        (convert_block_references
          (convert_double_links st
            (convert_hierarchical_structure (convert_tasks (convert_markdown_to_org tok cs)))).1
          (convert_double_links st
            (convert_hierarchical_structure (convert_tasks (convert_markdown_to_org tok cs)))).2).2))

theorem convert_file_keeps (tok : TempTokens) (st : ConvState) (stem content : String) :
    stKeeps st (convert_file tok st stem content).2 := by
  show stKeeps st
    (create_org_header (convert_file_body tok st (extract_properties content.data).2).1
      (match dictGet (extract_properties content.data).1 "title" with
       | some v =>
           if pyTruthy v then pvStr v else (alookup st.file_to_title stem).getD stem
       | none => (alookup st.file_to_title stem).getD stem)
      (extract_properties content.data).1).2
  exact stKeeps_trans (convert_file_body_keeps tok st (extract_properties content.data).2)
    (create_org_header_keeps (convert_file_body tok st (extract_properties content.data).2).1
      (match dictGet (extract_properties content.data).1 "title" with
       | some v =>
           if pyTruthy v then pvStr v else (alookup st.file_to_title stem).getD stem
       | none => (alookup st.file_to_title stem).getD stem)
      (extract_properties content.data).1)

theorem convertFold_keeps (tok : TempTokens) :
    ∀ (gs : List (String × String × String)) (acc : List OutFile × ConvState),
      stKeeps acc.2 ((gs.foldl (convertStep tok) acc)).2 := by
  intro gs
  induction gs with
  | nil => intro acc; exact stKeeps_refl _
  | cons g t ih =>
    intro acc
    rw [List.foldl_cons]
    refine stKeeps_trans ?_ (ih (convertStep tok acc g))
    show stKeeps acc.2 (convert_file tok acc.2 g.2.1 g.2.2).2
    exact convert_file_keeps tok acc.2 g.2.1 g.2.2

/-- Generic preservation of a predicate along a left fold. -/
theorem foldl_pres {σ α : Type} (P : σ → Prop) (f : σ → α → σ)
    (hf : ∀ s a, P s → P (f s a)) :
    ∀ (l : List α) (s : σ), P s → P (l.foldl f s) := by
  intro l
  induction l with
  | nil => intro s h; exact h
  | cons a t ih =>
    intro s h
    rw [List.foldl_cons]
    exact ih (f s a) (hf s a h)

/-- One scanner step conses the freshly assigned binding onto the registry. -/
theorem scanStep_page_ids (st : ConvState) (f : String × String × String) :
    (scanStep st f).page_ids = (f.2.1, generate_uuid st.counter) :: st.page_ids := rfl

/-- One scanner step registers the stem into the set of existing pages. -/
theorem scanStep_existing (st : ConvState) (f : String × String × String) :
    (scanStep st f).existing_pages = addSet f.2.1 st.existing_pages := rfl

/-- After the scanner fold the registry keys are the scanned stems (newest
first) on top of the initial keys. -/
theorem scanFold_keys :
    ∀ (l : List (String × String × String)) (st : ConvState),
      keysOf (l.foldl scanStep st).page_ids
        = (l.map (fun f => f.2.1)).reverse ++ keysOf st.page_ids := by
  intro l
  induction l with
  | nil => intro st; simp
  | cons f t ih =>
    intro st
    rw [List.foldl_cons, ih (scanStep st f), scanStep_page_ids]
    simp [keysOf, List.append_assoc]

/-- The scanner never touches the block registry. -/
theorem scanFold_block_ids :
    ∀ (l : List (String × String × String)) (st : ConvState),
      (l.foldl scanStep st).block_ids = st.block_ids := by
  intro l
  induction l with
  | nil => intro st; rfl
  | cons f t ih =>
    intro st
    rw [List.foldl_cons, ih (scanStep st f)]
    rfl

/-- The scanner never touches the pending-pages set. -/
theorem scanFold_missing :
    ∀ (l : List (String × String × String)) (st : ConvState),
      (l.foldl scanStep st).missing_pages = st.missing_pages := by
  intro l
  induction l with
  | nil => intro st; rfl
  | cons f t ih =>
    intro st
    rw [List.foldl_cons, ih (scanStep st f)]
    rfl

/-- If the stems still to be scanned are pairwise distinct and none of them
is already a registry key, the scanner only adds bindings, so every
existing binding persists. -/
theorem scanFold_keeps :
    ∀ (l : List (String × String × String)) (st : ConvState),
      (∀ f ∈ l, ¬ f.2.1 ∈ keysOf st.page_ids) →
      (l.map (fun f => f.2.1)).Nodup →
      stKeeps st (l.foldl scanStep st) := by
  intro l
  induction l with
  | nil => intro st _ _; exact stKeeps_refl st
  | cons f t ih =>
    intro st hmem hnd
    simp only [List.map_cons] at hnd
    rw [List.foldl_cons]
    have hstep : stKeeps st (scanStep st f) := by
      refine ⟨?_, keeps_refl _⟩
      rw [scanStep_page_ids]
      exact keeps_cons_of_not_mem (hmem f (List.mem_cons_self f t))
    refine stKeeps_trans hstep (ih (scanStep st f) ?_ (List.nodup_cons.mp hnd).2)
    · intro g hg
      rw [scanStep_page_ids]
      simp only [keysOf, List.map_cons, List.mem_cons]
      rintro (h | h)
      · exact (List.nodup_cons.mp hnd).1 (h ▸ List.mem_map.mpr ⟨g, hg, rfl⟩)
      · exact hmem g (List.mem_cons_of_mem f hg) h

/-- The scanner keeps the registry keys inside the set of existing pages. -/
theorem scanFold_keys_sub_existing :
    ∀ (l : List (String × String × String)) (st : ConvState),
      (∀ k ∈ keysOf st.page_ids, k ∈ st.existing_pages) →
      ∀ k ∈ keysOf (l.foldl scanStep st).page_ids,
        k ∈ (l.foldl scanStep st).existing_pages := by
  intro l
  induction l with
  | nil => intro st h; exact h
  | cons f t ih =>
    intro st h
    rw [List.foldl_cons]
    apply ih
    intro k hk
    rw [scanStep_page_ids] at hk
    rw [scanStep_existing]
    simp only [keysOf, List.map_cons, List.mem_cons] at hk
    rcases hk with h1 | h1
    · rw [h1]
      exact mem_addSet_self _ _
    · exact addSet_mono (h k h1) _

/-- The collector pass only records pending names: both identifier
registries and the existing-pages set come out unchanged. -/
theorem collectFile_fields (st : ConvState) (content : String) :
    (collectFile st content).page_ids = st.page_ids ∧
    (collectFile st content).block_ids = st.block_ids ∧
    (collectFile st content).existing_pages = st.existing_pages := by
  unfold collectFile
  refine foldl_pres
    (fun s => s.page_ids = st.page_ids ∧ s.block_ids = st.block_ids ∧
      s.existing_pages = st.existing_pages) _ ?_ all_link_patterns st ⟨rfl, rfl, rfl⟩
  intro s pat hP
  refine foldl_pres
    (fun s => s.page_ids = st.page_ids ∧ s.block_ids = st.block_ids ∧
      s.existing_pages = st.existing_pages) _ ?_ (findAll pat content.data) s hP
  intro s2 cap h
  dsimp only
  split
  · exact h
  · exact h

/-- Field preservation of `collectFile`, lifted to the whole collector
pass. -/
theorem collect_missing_pages_fields (c : Corpus) (st : ConvState) :
    (collect_missing_pages c st).page_ids = st.page_ids ∧
    (collect_missing_pages c st).block_ids = st.block_ids ∧
    (collect_missing_pages c st).existing_pages = st.existing_pages := by
  unfold collect_missing_pages
  refine foldl_pres
    (fun s => s.page_ids = st.page_ids ∧ s.block_ids = st.block_ids ∧
      s.existing_pages = st.existing_pages) _ ?_ (corpusFiles c) st ⟨rfl, rfl, rfl⟩
  intro s f hP
  have h2 := collectFile_fields s f.2.2
  exact ⟨h2.1.trans hP.1, h2.2.1.trans hP.2.1, h2.2.2.trans hP.2.2⟩

/-- The collector keeps the pending set duplicate-free and disjoint from the
existing pages (its guard tests membership before adding). -/
theorem collect_missing_inv (c : Corpus) (st : ConvState)
    (h0 : st.missing_pages.Nodup)
    (h1 : ∀ n ∈ st.missing_pages, ¬ n ∈ st.existing_pages) :
    (collect_missing_pages c st).missing_pages.Nodup ∧
    ∀ n ∈ (collect_missing_pages c st).missing_pages,
      ¬ n ∈ (collect_missing_pages c st).existing_pages := by
  unfold collect_missing_pages
  refine foldl_pres
    (fun s => s.missing_pages.Nodup ∧
      ∀ n ∈ s.missing_pages, ¬ n ∈ s.existing_pages) _ ?_ (corpusFiles c) st ⟨h0, h1⟩
  intro s f hP
  unfold collectStep collectFile
  refine foldl_pres
    (fun s => s.missing_pages.Nodup ∧
      ∀ n ∈ s.missing_pages, ¬ n ∈ s.existing_pages) _ ?_ all_link_patterns s hP
  intro s2 pat hP2
  refine foldl_pres
    (fun s => s.missing_pages.Nodup ∧
      ∀ n ∈ s.missing_pages, ¬ n ∈ s.existing_pages) _ ?_ (findAll pat f.2.2.data) s2 hP2
  intro s3 cap hP3
  dsimp only
  split
  · rename_i hguard
    simp at hguard
    refine ⟨addSet_nodup hP3.1 _, ?_⟩
    intro n hn
    rcases mem_of_mem_addSet hn with h | h
    · rw [h]
      exact hguard.2
    · exact hP3.2 n h
  · exact hP3

/-- One stub step conses the freshly assigned binding onto the registry. -/
theorem createMissingStep_page_ids (now : String) (acc : List OutFile × ConvState)
    (n : String) :
    ((createMissingStep now acc n).2).page_ids
      = (n, generate_uuid acc.2.counter) :: acc.2.page_ids := rfl

/-- If the pending names are pairwise distinct and none of them is already a
registry key, stub materialization only adds bindings, so every existing
binding persists. -/
theorem createMissingFold_keeps (now : String) :
    ∀ (l : List String) (acc : List OutFile × ConvState),
      l.Nodup → (∀ n ∈ l, ¬ n ∈ keysOf acc.2.page_ids) →
      stKeeps acc.2 ((l.foldl (createMissingStep now) acc)).2 := by
  intro l
  induction l with
  | nil => intro acc _ _; exact stKeeps_refl _
  | cons n t ih =>
    intro acc hnd hmem
    rw [List.foldl_cons]
    have hstep : stKeeps acc.2 (createMissingStep now acc n).2 := by
      refine ⟨?_, keeps_refl _⟩
      rw [createMissingStep_page_ids]
      exact keeps_cons_of_not_mem (hmem n (List.mem_cons_self n t))
    refine stKeeps_trans hstep
      (ih (createMissingStep now acc n) (List.nodup_cons.mp hnd).2 ?_)
    · intro m hm
      rw [createMissingStep_page_ids]
      simp only [keysOf, List.map_cons, List.mem_cons]
      rintro (h | h)
      · exact (List.nodup_cons.mp hnd).1 (h ▸ hm)
      · exact hmem m (List.mem_cons_of_mem n hm) h

/-- The final state of the full run is the state of the conversion fold. -/
theorem convert_all_state (tok : TempTokens) (now : String) (c : Corpus) :
    (convert_all tok now c).2 =
      ((corpusFiles c).foldl (convertStep tok)
        ([], (create_missing_pages now
          (collect_missing_pages c (scan_existing_pages c initState))).2)).2 := rfl

/-- Claim C6 (amended): provided the file stems are pairwise distinct across
the pages and journals folders, identifier bindings are never reassigned:
every binding present after a prefix of the scan persists to the end of the
scan, the collector leaves both registries untouched, stub materialization
only adds bindings for pending names (which are never existing stems), and
every binding present after a prefix of the conversion pass persists to the
final state of the run.  Without the distinct-stems hypothesis the scanner
itself reassigns (see the counterexample). -/
theorem C6_amended (tok : TempTokens) (now : String) (c : Corpus)
    (hnd : ((corpusFiles c).map (fun f => f.2.1)).Nodup) :
    (∀ pre suf, corpusFiles c = pre ++ suf →
        stKeeps (pre.foldl scanStep initState) (scan_existing_pages c initState)) ∧
    (collect_missing_pages c (scan_existing_pages c initState)).page_ids
        = (scan_existing_pages c initState).page_ids ∧
    (collect_missing_pages c (scan_existing_pages c initState)).block_ids
        = (scan_existing_pages c initState).block_ids ∧
    stKeeps (collect_missing_pages c (scan_existing_pages c initState))
      (create_missing_pages now
        (collect_missing_pages c (scan_existing_pages c initState))).2 ∧
    ∀ pre suf, corpusFiles c = pre ++ suf →
        stKeeps
          (pre.foldl (convertStep tok)
            ([], (create_missing_pages now
              (collect_missing_pages c (scan_existing_pages c initState))).2)).2
          (convert_all tok now c).2 := by
  refine ⟨?_, (collect_missing_pages_fields c _).1,
    (collect_missing_pages_fields c _).2.1, ?_, ?_⟩
  · intro pre suf hsplit
    have hnd2 : ((pre.map (fun f => f.2.1)) ++ (suf.map (fun f => f.2.1))).Nodup := by
      rw [← List.map_append, ← hsplit]
      exact hnd
    unfold scan_existing_pages
    rw [hsplit, List.foldl_append]
    refine scanFold_keeps suf (pre.foldl scanStep initState) ?_
      ((List.nodup_append.mp hnd2).2.1)
    intro f hf
    rw [scanFold_keys pre initState]
    intro hkmem
    have hpre : f.2.1 ∈ (pre.map (fun f => f.2.1)).reverse := by
      simpa [keysOf, initState] using hkmem
    exact (List.nodup_append.mp hnd2).2.2 (List.mem_reverse.mp hpre)
      (List.mem_map.mpr ⟨f, hf, rfl⟩)
  · have hmiss0 : (scan_existing_pages c initState).missing_pages = ([] : List String) :=
      scanFold_missing (corpusFiles c) initState
    have hinv := collect_missing_inv c (scan_existing_pages c initState)
      (by rw [hmiss0]; exact List.nodup_nil)
      (by rw [hmiss0]; intro n hn; simp at hn)
    have hfields := collect_missing_pages_fields c (scan_existing_pages c initState)
    have hsub : ∀ k ∈ keysOf (collect_missing_pages c
        (scan_existing_pages c initState)).page_ids,
        k ∈ (collect_missing_pages c (scan_existing_pages c initState)).existing_pages := by
      rw [hfields.1, hfields.2.2]
      exact scanFold_keys_sub_existing (corpusFiles c) initState
        (by intro k hk; simp [keysOf, initState] at hk)
    exact createMissingFold_keeps now
      (collect_missing_pages c (scan_existing_pages c initState)).missing_pages
      ([], collect_missing_pages c (scan_existing_pages c initState))
      hinv.1 (fun n hn hk => hinv.2 n hn (hsub n hk))
  · intro pre suf hsplit
    rw [convert_all_state, hsplit, List.foldl_append]
    exact convertFold_keeps tok suf _

/-- Concrete instance of C6 (amended): a two-file corpus with distinct stems
satisfies the hypothesis, and the stub phase keeps every binding of the
post-collect state. -/
theorem C6_amended_witness :
    (((corpusFiles (Corpus.mk [("a", "x [[b]] y")] [("j", "z")])).map
        (fun f => f.2.1)).Nodup) ∧
    stKeeps
      (collect_missing_pages (Corpus.mk [("a", "x [[b]] y")] [("j", "z")])
        (scan_existing_pages (Corpus.mk [("a", "x [[b]] y")] [("j", "z")]) initState))
      (create_missing_pages "2025-01-01"
        (collect_missing_pages (Corpus.mk [("a", "x [[b]] y")] [("j", "z")])
          (scan_existing_pages (Corpus.mk [("a", "x [[b]] y")] [("j", "z")])
            initState))).2 :=
  ⟨by decide,
    (C6_amended default_temp_tokens "2025-01-01"
      (Corpus.mk [("a", "x [[b]] y")] [("j", "z")]) (by decide)).2.2.2.1⟩

end L2O
